import Mathlib

/-!
Verification development for the blackjack table server (`src/Server.py`).

The game state and every operation the server performs under its lock are
embedded shallowly: python lists become `List`, the card tuples become a
pair of enumerated rank and suit, integer balances become `Int`, and the
randomness of `random.shuffle` becomes an explicit oracle `fresco : Nat →
List Carta` supplying the successive fresh 6-deck pools.  Fallible steps
(popping an empty pool, indexing out of range, while-loop fuel) return
`Option`; `none` models an exception in the source.  Definitions follow the
source functions of the same (Spanish) names.
-/

set_option linter.unusedVariables false

/-! ## Cards and the hand evaluator (`VALORES`, `valor_mano`) -/

inductive Rango where
  | r2 | r3 | r4 | r5 | r6 | r7 | r8 | r9 | r10 | rJ | rQ | rK | rA
deriving DecidableEq

inductive Palo where
  | picas | corazones | diamantes | treboles
deriving DecidableEq

abbrev Carta := Rango × Palo

/-- The rank-value table `VALORES` of the source (ace = 11, faces = 10). -/
def VALORES : Rango → Nat
  | .r2 => 2 | .r3 => 3 | .r4 => 4 | .r5 => 5 | .r6 => 6 | .r7 => 7
  | .r8 => 8 | .r9 => 9 | .r10 => 10 | .rJ => 10 | .rQ => 10 | .rK => 10
  | .rA => 11

/-- Minimal value of a rank, counting an ace as 1 (used for termination
bounds of the dealer loop; not a function of the source). -/
def valorDuro : Rango → Nat
  | .rA => 1
  | r => VALORES r

/-- The `while total > 21 and ases:` loop of `valor_mano`, recursing on the
number of aces still available for downgrading. -/
def ajustarAses : Nat → Nat → Nat
  | total, 0 => total
  | total, ases + 1 => if 21 < total then ajustarAses (total - 10) ases else total

/-- Raw sum of card values (the `total` accumulated by `valor_mano` before
the ace adjustment loop). -/
def sumaCruda (mano : List Carta) : Nat :=
  (mano.map (fun c => VALORES c.1)).sum

/-- Number of aces in the hand (the `ases` counter of `valor_mano`). -/
def cuentaAses (mano : List Carta) : Nat :=
  (mano.filter (fun c => decide (c.1 = Rango.rA))).length

/-- `valor_mano` of the source: raw sum, then downgrade aces (11 to 1)
while the total exceeds 21. -/
def valor_mano (mano : List Carta) : Nat :=
  ajustarAses (sumaCruda mano) (cuentaAses mano)

/-- Minimal (all aces hard) value of a hand. -/
def sumaDura (mano : List Carta) : Nat :=
  (mano.map (fun c => valorDuro c.1)).sum

/-! ## The shoe (`nuevo_mazo`, `Mesa.barajar`, `list.pop`)

`random.shuffle` is modelled by an oracle `fresco` giving the successive
fresh pools a call of `nuevo_mazo()` would return; `usados` counts the
pools consumed so far.  `pop` removes the last element, as python
`list.pop()` does, and returns `none` on an empty pool (an exception in
python). -/

structure Mazo where
  cartas : List Carta
  fresco : Nat → List Carta
  usados : Nat

/-- `Mesa.barajar`: replace the pool with a fresh 6-deck shuffle when
fewer than 52 cards remain. -/
def Mazo.barajar (m : Mazo) : Mazo :=
  if m.cartas.length < 52 then
    { cartas := m.fresco m.usados, fresco := m.fresco, usados := m.usados + 1 }
  else m

/-- `self.mazo.pop()`: remove and return the last card. -/
def Mazo.pop (m : Mazo) : Option (Carta × Mazo) :=
  match m.cartas.getLast? with
  | some c => some (c, { m with cartas := m.cartas.dropLast })
  | none => none

/-- The oracle always supplies full 6-by-52 pools, as `nuevo_mazo()` does. -/
def FrescoOk (m : Mazo) : Prop :=
  ∀ n : Nat, (m.fresco n).length = 312

/-! ## Players, table state, and outbound events -/

structure Jugador where
  id : Nat
  nombre : String
  saldo : Int
  manos : List (List Carta)
  apuestas : List Int
  espera_apuesta : Bool
deriving DecidableEq

structure Mesa where
  jugadores : List Jugador
  banca : List Carta
  mazo : Mazo
  en_apuestas : Bool
  en_ronda : Bool
  turno_idx : Option Nat
  mano_turno_idx : Option Nat
  siguiente_id : Nat

/-- A card as shown to clients: real, or the hidden placeholder (the
`("?", "?")` tuple of `vista_banca`). -/
inductive CartaVista where
  | visible (c : Carta)
  | oculta
deriving DecidableEq

/-- One player entry of `estado_json`. -/
structure JugadorJson where
  nombre : String
  saldo : Int
  manos : List (List Carta)
  apuestas : List Int
deriving DecidableEq

/-- The `ESTADO` payload of `estado_json`. -/
structure EstadoJson where
  banca : List CartaVista
  jugadores : List JugadorJson
  turno : Option String
  mano_turno_idx : Option Nat
deriving DecidableEq

abbrev Detalle := String × Nat × String × Int

/-- Outbound message payloads (interpolated card names and totals of the
`INFO` f-strings are abstracted to the fixed template text). -/
inductive Msg where
  | unido (nombre : String)
  | renombrado (antes ahora : String)
  | apuestasAbiertas
  | preguntarApuesta (nombre : String)
  | apuestaOk (nombre : String) (monto : Int)
  | rondaIniciada
  | estado (e : EstadoJson)
  | resultados (banca : List Carta) (total_banca : Nat) (detalle : List Detalle)
  | info (mensaje : String)
  | error (mensaje : String)
  | salio (nombre : String)
deriving DecidableEq

/-- An emitted event: `broadcast` to every player, or `_safe_send` targeted
at one connection. -/
inductive Evento where
  | aTodos (m : Msg)
  | aUno (id : Nat) (m : Msg)
deriving DecidableEq

/-! ## Views (`vista_banca`, `estado_json`) -/

/-- `Mesa.vista_banca`: during a round with at least two dealer cards only
the first card is shown and the rest collapse to the placeholder; otherwise
the full hand is shown. -/
def Mesa.vista_banca (mesa : Mesa) : List CartaVista :=
  match mesa.en_ronda, mesa.banca with
  | true, c0 :: _ :: _ => [CartaVista.visible c0, CartaVista.oculta]
  | _, b => b.map CartaVista.visible

/-- `Mesa.estado_json`. -/
def Mesa.estado_json (mesa : Mesa) : EstadoJson :=
  { banca := mesa.vista_banca
    jugadores := mesa.jugadores.map (fun j =>
      { nombre := j.nombre, saldo := j.saldo, manos := j.manos, apuestas := j.apuestas })
    turno :=
      match mesa.turno_idx with
      | some ti => (mesa.jugadores.get? ti).map Jugador.nombre
      | none => none
    mano_turno_idx := mesa.mano_turno_idx }

/-- `broadcast_estado` as an event. -/
def estadoEv (mesa : Mesa) : Evento :=
  Evento.aTodos (Msg.estado mesa.estado_json)

/-! ## Turn bookkeeping -/

/-- A player with a live bet list and hand list. -/
def activo (j : Jugador) : Bool :=
  !j.apuestas.isEmpty && !j.manos.isEmpty

/-- `Mesa._primer_idx_activo`: least index of an active player. -/
def Mesa.primer_idx_activo (mesa : Mesa) : Option Nat :=
  (List.range mesa.jugadores.length).find?
    (fun i => ((mesa.jugadores.get? i).map activo).getD false)

/-- `Mesa._siguiente_idx_activo`: least active index strictly after
`idx_actual`. -/
def Mesa.siguiente_idx_activo (mesa : Mesa) (idx_actual : Nat) : Option Nat :=
  (List.range mesa.jugadores.length).find?
    (fun i => decide (idx_actual < i) && ((mesa.jugadores.get? i).map activo).getD false)

/-! ## Dealer resolution and settlement (`jugar_banca`) -/

/-- The dealer draw loop `while valor_mano(banca) < 17`, with explicit fuel
(17 always suffices, see `bancaLoop_total`). -/
def bancaLoop : Nat → Mazo → List Carta → Option (Mazo × List Carta)
  | 0, mz, b => if valor_mano b < 17 then none else some (mz, b)
  | fuel + 1, mz, b =>
    if valor_mano b < 17 then
      match (mz.barajar).pop with
      | some (c, mz2) => bancaLoop fuel mz2 (b ++ [c])
      | none => none
    else some (mz, b)

/-- The defensive bet padding `while len(j.apuestas) < len(j.manos):
j.apuestas.append(0)`. -/
def apuestasAlineadas (j : Jugador) : List Int :=
  j.apuestas ++ List.replicate (j.manos.length - j.apuestas.length) (0 : Int)

/-- The settlement loop over one player, iterating the (hand, bet) pairs
with their index and threading the balance. -/
def liquidarManos (nombre : String) (total_banca : Nat) :
    Nat → Int → List (List Carta × Int) → Int × List Detalle
  | _, saldo, [] => (saldo, [])
  | idx, saldo, (mano, ap) :: resto =>
    let total := valor_mano mano
    if 21 < total then
      let r := liquidarManos nombre total_banca (idx + 1) saldo resto
      (r.1, (nombre, idx, "pierde", -ap) :: r.2)
    else if 21 < total_banca ∨ total_banca < total then
      let r := liquidarManos nombre total_banca (idx + 1) (saldo + ap * 2) resto
      (r.1, (nombre, idx, "gana", ap) :: r.2)
    else if total = total_banca then
      let r := liquidarManos nombre total_banca (idx + 1) (saldo + ap) resto
      (r.1, (nombre, idx, "empata", 0) :: r.2)
    else
      let r := liquidarManos nombre total_banca (idx + 1) saldo resto
      (r.1, (nombre, idx, "pierde", -ap) :: r.2)

/-- Settle one player: skipped entirely when it has no hands, otherwise the
bet list is padded and every hand compared with the dealer total. -/
def liquidarJugador (total_banca : Nat) (j : Jugador) : Jugador × List Detalle :=
  if j.manos.isEmpty then (j, [])
  else
    let r := liquidarManos j.nombre total_banca 0 j.saldo
      (j.manos.zip (apuestasAlineadas j))
    ({ j with apuestas := apuestasAlineadas j, saldo := r.1 }, r.2)

/-- `Mesa.jugar_banca`: dealer draws to 17+, every live hand is settled,
the `RESULTADOS` broadcast carries the full dealer hand, and flags, hands
and bets are reset. -/
def Mesa.jugar_banca (mesa : Mesa) : Option (Mesa × List Evento) :=
  match bancaLoop 17 mesa.mazo mesa.banca with
  | none => none
  | some (mz, b) =>
    let total_banca := valor_mano b
    let liquidados := mesa.jugadores.map (liquidarJugador total_banca)
    let detalle := (liquidados.map Prod.snd).flatten
    let js := (liquidados.map Prod.fst).map
      (fun j => { j with manos := [], apuestas := [], espera_apuesta := false })
    some ({ mesa with mazo := mz, banca := b, jugadores := js,
                      en_ronda := false, en_apuestas := false },
      [Evento.aTodos (Msg.resultados b total_banca detalle)])

/-- Advance past the current seat: next active player, or dealer
resolution when none is left (the shared tail of `siguiente_turno`). -/
def Mesa.avanzarJugador (mesa : Mesa) (ti : Nat) : Option (Mesa × List Evento) :=
  match mesa.siguiente_idx_activo ti with
  | none =>
    Mesa.jugar_banca { mesa with turno_idx := none, mano_turno_idx := none }
  | some nxt =>
    let m := { mesa with turno_idx := some nxt, mano_turno_idx := some 0 }
    some (m, [estadoEv m])

/-- `Mesa.siguiente_turno`. -/
def Mesa.siguiente_turno (mesa : Mesa) : Option (Mesa × List Evento) :=
  match mesa.turno_idx with
  | none => some (mesa, [])
  | some ti =>
    if mesa.en_ronda = false then some (mesa, [])
    else
      match mesa.jugadores.get? ti with
      | none => mesa.avanzarJugador ti
      | some actual =>
        if actual.apuestas.isEmpty || actual.manos.isEmpty then mesa.avanzarJugador ti
        else
          let mi := mesa.mano_turno_idx.getD 0
          if mi + 1 < actual.manos.length then
            let m := { mesa with mano_turno_idx := some (mi + 1) }
            some (m, [estadoEv m])
          else mesa.avanzarJugador ti

/-! ## Betting cycle (`abrir_apuestas`, `evaluar_inicio_ronda`) -/

/-- `Mesa.abrir_apuestas`. -/
def Mesa.abrir_apuestas (mesa : Mesa) : Mesa × List Evento :=
  let js := mesa.jugadores.map
    (fun j => { j with manos := [], apuestas := [], espera_apuesta := true })
  let m := { mesa with en_apuestas := true, en_ronda := false, banca := [],
                       jugadores := js }
  (m, Evento.aTodos Msg.apuestasAbiertas ::
      js.map (fun j => Evento.aUno j.id (Msg.preguntarApuesta j.nombre)))

/-- The initial deal loop: every player with a bet receives a single
two-card hand, the others get no hand. -/
def repartir (mz : Mazo) : List Jugador → Option (Mazo × List Jugador)
  | [] => some (mz, [])
  | j :: resto =>
    if j.apuestas.isEmpty then
      match repartir mz resto with
      | none => none
      | some (mz2, js) => some (mz2, { j with manos := [] } :: js)
    else
      match mz.pop with
      | none => none
      | some (c1, mz1) =>
        match mz1.pop with
        | none => none
        | some (c2, mz2) =>
          match repartir mz2 resto with
          | none => none
          | some (mz3, js) => some (mz3, { j with manos := [[c1, c2]] } :: js)

/-- `Mesa.evaluar_inicio_ronda`. -/
def Mesa.evaluar_inicio_ronda (mesa : Mesa) : Option (Mesa × List Evento) :=
  if mesa.en_apuestas = false then some (mesa, [])
  else if mesa.jugadores.isEmpty then some (mesa, [])
  else if ¬ mesa.jugadores.all (fun j => !j.espera_apuesta) then some (mesa, [])
  else if ¬ mesa.jugadores.any (fun j => !j.apuestas.isEmpty) then
    let m := { mesa with en_apuestas := false }
    some (m, [Evento.aTodos (Msg.info "Nadie apostó. Apuestas canceladas."),
              estadoEv m])
  else
    let m1 := { mesa with en_apuestas := false, en_ronda := true, banca := [] }
    let mz := m1.mazo.barajar
    match mz.pop with
    | none => none
    | some (c1, mz1) =>
      match mz1.pop with
      | none => none
      | some (c2, mz2) =>
        match repartir mz2 m1.jugadores with
        | none => none
        | some (mz3, js) =>
          let m2 := { m1 with banca := [c1, c2], mazo := mz3, jugadores := js }
          let m3 := { m2 with
            turno_idx := m2.primer_idx_activo
            mano_turno_idx :=
              match m2.primer_idx_activo with
              | some _ => some 0
              | none => none }
          some (m3, [Evento.aTodos Msg.rondaIniciada, estadoEv m3])

/-! ## Per-connection command handling (`manejar_cliente`) -/

inductive Cmd where
  | configurarNombre (nombre : String)
  | iniciar
  | apostar (monto : Int)
  | cancelarApuesta
  | subir
  | quedarse
  | doblar
  | dividir
deriving DecidableEq

/-- `list.insert(n, a)` of python: insert at position `n` (clamped to the
end). -/
def insertarEn (n : Nat) (a : α) (l : List α) : List α :=
  l.take n ++ a :: l.drop n

/-- Index and record of the sender (python holds the `Jugador` object of
the connection directly; identity is modelled by the unique `id`). -/
def Mesa.conIdx (mesa : Mesa) (pid : Nat) : Option (Nat × Jugador) :=
  match mesa.jugadores.findIdx? (fun j => decide (j.id = pid)) with
  | none => none
  | some i => (mesa.jugadores.get? i).map (fun j => (i, j))

/-- The body of the `with lock:` block of `manejar_cliente` for one decoded
command.  `none` models a python exception (an out-of-range list index or a
pop from an empty pool); a command from an unknown `pid` (impossible for a
live connection) is a no-op. -/
def manejar (mesa : Mesa) (pid : Nat) : Cmd → Option (Mesa × List Evento)
  | .configurarNombre nombre =>
    match mesa.conIdx pid with
    | none => some (mesa, [])
    | some (i, j) =>
      some ({ mesa with jugadores := mesa.jugadores.set i { j with nombre := nombre } },
        [Evento.aTodos (Msg.renombrado j.nombre nombre)])
  | .iniciar =>
    if mesa.en_ronda = false ∧ mesa.en_apuestas = false then
      some mesa.abrir_apuestas
    else
      some (mesa, [Evento.aUno pid (Msg.error "Ya hay una ronda o apuestas abiertas.")])
  | .apostar monto =>
    if monto ≤ 0 then
      some (mesa, [Evento.aUno pid (Msg.error "Monto inválido.")])
    else
      match mesa.conIdx pid with
      | none => some (mesa, [])
      | some (i, j) =>
        if j.saldo < monto then
          some (mesa, [Evento.aUno pid (Msg.error "Fondos insuficientes.")])
        else
          let j2 := { j with saldo := j.saldo - monto, apuestas := [monto],
                             manos := [], espera_apuesta := false }
          let m := { mesa with jugadores := mesa.jugadores.set i j2 }
          match m.evaluar_inicio_ronda with
          | none => none
          | some (m2, evs) =>
            some (m2, Evento.aTodos (Msg.apuestaOk j.nombre monto) :: evs)
  | .cancelarApuesta =>
    match mesa.conIdx pid with
    | none => some (mesa, [])
    | some (i, j) =>
      let j2 := { j with apuestas := [], manos := [], espera_apuesta := false }
      let m := { mesa with jugadores := mesa.jugadores.set i j2 }
      match m.evaluar_inicio_ronda with
      | none => none
      | some (m2, evs) =>
        some (m2, Evento.aTodos (Msg.info (j.nombre ++ " canceló su apuesta.")) ::
                  estadoEv m :: evs)
  | .subir =>
    if mesa.en_ronda = false then
      some (mesa, [Evento.aUno pid (Msg.error "No es tu turno.")])
    else
      match mesa.turno_idx with
      | none => some (mesa, [Evento.aUno pid (Msg.error "No es tu turno.")])
      | some ti =>
        match mesa.jugadores.get? ti with
        | none => none
        | some j =>
          if j.id ≠ pid then
            some (mesa, [Evento.aUno pid (Msg.error "No es tu turno.")])
          else
            let mi := mesa.mano_turno_idx.getD 0
            if j.manos.length ≤ mi then
              some (mesa, [Evento.aUno pid (Msg.error "No hay mano activa.")])
            else
              match (mesa.mazo.barajar).pop with
              | none => none
              | some (carta, mz2) =>
                let mano2 := j.manos.getD mi [] ++ [carta]
                let j2 := { j with manos := j.manos.set mi mano2 }
                let m := { mesa with jugadores := mesa.jugadores.set ti j2, mazo := mz2 }
                let evs0 := [Evento.aTodos (Msg.info (j.nombre ++ " pidió carta.")), estadoEv m]
                if 21 < valor_mano mano2 then
                  match m.siguiente_turno with
                  | none => none
                  | some (m2, evs1) =>
                    some (m2, evs0 ++ evs1 ++
                      (if m2.en_ronda then [estadoEv m2] else []))
                else some (m, evs0)
  | .quedarse =>
    if mesa.en_ronda = false then
      some (mesa, [Evento.aUno pid (Msg.error "No es tu turno.")])
    else
      match mesa.turno_idx with
      | none => some (mesa, [Evento.aUno pid (Msg.error "No es tu turno.")])
      | some ti =>
        match mesa.jugadores.get? ti with
        | none => none
        | some j =>
          if j.id ≠ pid then
            some (mesa, [Evento.aUno pid (Msg.error "No es tu turno.")])
          else
            match mesa.siguiente_turno with
            | none => none
            | some (m2, evs1) =>
              some (m2, Evento.aTodos (Msg.info (j.nombre ++ " se planta.")) :: evs1 ++
                (if m2.en_ronda then [estadoEv m2] else []))
  | .doblar =>
    if mesa.en_ronda = false then
      some (mesa, [Evento.aUno pid (Msg.error "No es tu turno.")])
    else
      match mesa.turno_idx with
      | none => some (mesa, [Evento.aUno pid (Msg.error "No es tu turno.")])
      | some ti =>
        match mesa.jugadores.get? ti with
        | none => none
        | some j =>
          if j.id ≠ pid then
            some (mesa, [Evento.aUno pid (Msg.error "No es tu turno.")])
          else
            let mi := mesa.mano_turno_idx.getD 0
            if j.manos.length ≤ mi ∨ j.apuestas.length ≤ mi then
              some (mesa, [Evento.aUno pid (Msg.error "No hay mano activa para doblar.")])
            else
              let mano := j.manos.getD mi []
              let ap := j.apuestas.getD mi 0
              if mano.length ≠ 2 then
                some (mesa, [Evento.aUno pid (Msg.error "Solo puedes doblar con 2 cartas.")])
              else if j.saldo < ap then
                some (mesa, [Evento.aUno pid (Msg.error "Fondos insuficientes para doblar.")])
              else
                match (mesa.mazo.barajar).pop with
                | none => none
                | some (carta, mz2) =>
                  let mano2 := mano ++ [carta]
                  let j2 := { j with saldo := j.saldo - ap,
                                     apuestas := j.apuestas.set mi (ap + ap),
                                     manos := j.manos.set mi mano2 }
                  let m := { mesa with jugadores := mesa.jugadores.set ti j2, mazo := mz2 }
                  let evs0 := [Evento.aTodos (Msg.info (j.nombre ++ " dobló.")), estadoEv m]
                  match m.siguiente_turno with
                  | none => none
                  | some (m2, evs1) =>
                    some (m2, evs0 ++ evs1 ++
                      (if m2.en_ronda then [estadoEv m2] else []))
  | .dividir =>
    if mesa.en_ronda = false then
      some (mesa, [Evento.aUno pid (Msg.error "No es tu turno.")])
    else
      match mesa.turno_idx with
      | none => some (mesa, [Evento.aUno pid (Msg.error "No es tu turno.")])
      | some ti =>
        match mesa.jugadores.get? ti with
        | none => none
        | some j =>
          if j.id ≠ pid then
            some (mesa, [Evento.aUno pid (Msg.error "No es tu turno.")])
          else
            let mi := mesa.mano_turno_idx.getD 0
            if j.manos.length ≤ mi ∨ j.apuestas.length ≤ mi then
              some (mesa, [Evento.aUno pid (Msg.error "No hay mano activa para dividir.")])
            else
              let mano := j.manos.getD mi []
              let ap := j.apuestas.getD mi 0
              match mano with
              | [c1, c2] =>
                if c1.1 = c2.1 ∧ ap ≤ j.saldo then
                  match (mesa.mazo.barajar).pop with
                  | none => none
                  | some (n1, mz1) =>
                    match mz1.pop with
                    | none => none
                    | some (n2, mz2) =>
                      let j2 := { j with
                        saldo := j.saldo - ap
                        manos := insertarEn (mi + 1) [c2, n2] (j.manos.set mi [c1, n1])
                        apuestas := insertarEn (mi + 1) ap j.apuestas }
                      let m := { mesa with jugadores := mesa.jugadores.set ti j2,
                                           mazo := mz2 }
                      some (m, [Evento.aTodos (Msg.info (j.nombre ++ " dividió su mano.")), estadoEv m])
                else
                  some (mesa, [Evento.aUno pid (Msg.error "No puedes dividir esta mano.")])
              | _ =>
                some (mesa, [Evento.aUno pid (Msg.error "No puedes dividir esta mano.")])

/-! ## Connection lifecycle -/

/-- Connection admission: at most four seats, new players start with
balance 500. -/
def conectar (mesa : Mesa) (nombre : String) : Mesa × List Evento :=
  if 4 ≤ mesa.jugadores.length then
    (mesa, [Evento.aUno mesa.siguiente_id (Msg.error "Mesa llena (máx 4).")])
  else
    let j : Jugador := { id := mesa.siguiente_id, nombre := nombre, saldo := 500,
                         manos := [], apuestas := [], espera_apuesta := false }
    ({ mesa with jugadores := mesa.jugadores ++ [j],
                 siguiente_id := mesa.siguiente_id + 1 },
     [Evento.aTodos (Msg.unido nombre)])

/-- The `finally:` cleanup of `manejar_cliente`: remove the player, adjust
or advance the turn, re-evaluate the betting phase, and broadcast the new
state to the remaining players. -/
def desconectar (mesa : Mesa) (pid : Nat) : Option (Mesa × List Evento) :=
  match mesa.conIdx pid with
  | none => some (mesa, [])
  | some (idx, j) =>
    let m0 := { mesa with jugadores := mesa.jugadores.eraseIdx idx }
    let paso2 : Option (Mesa × List Evento) :=
      if m0.en_ronda then
        match m0.turno_idx with
        | none => some (m0, [])
        | some ti =>
          if idx = ti then
            match m0.siguiente_turno with
            | none => none
            | some (m1, evs) =>
              some (m1, evs ++ (if m1.en_ronda then [estadoEv m1] else []))
          else if idx < ti then
            some ({ m0 with turno_idx := some (ti - 1) }, [])
          else some (m0, [])
      else if m0.en_apuestas then m0.evaluar_inicio_ronda
      else some (m0, [])
    match paso2 with
    | none => none
    | some (m2, evs2) =>
      some (m2, Evento.aTodos (Msg.salio j.nombre) :: evs2 ++
        (if m2.jugadores.isEmpty then [] else [estadoEv m2]))

/-- One external stimulus: a new connection, a decoded command from a live
connection, or a disconnection (`SALIR` or a transport failure). -/
inductive Accion where
  | conecta (nombre : String)
  | comando (pid : Nat) (c : Cmd)
  | desconecta (pid : Nat)

def paso (mesa : Mesa) : Accion → Option (Mesa × List Evento)
  | .conecta nombre => some (conectar mesa nombre)
  | .comando pid c => manejar mesa pid c
  | .desconecta pid => desconectar mesa pid

def ejecutar (mesa : Mesa) : List Accion → Option Mesa
  | [] => some mesa
  | a :: resto =>
    match paso mesa a with
    | none => none
    | some (m, _) => ejecutar m resto

/-- The state built by `Mesa.__init__` (the constructor draws one fresh
pool for the initial shoe). -/
def mesaInicial (fresco : Nat → List Carta) : Mesa :=
  { jugadores := [], banca := [], mazo := ⟨fresco 0, fresco, 1⟩,
    en_apuestas := false, en_ronda := false,
    turno_idx := none, mano_turno_idx := none, siguiente_id := 0 }

/-- One ordered 52-card deck, as enumerated by `nuevo_mazo`. -/
def baraja52 : List Carta :=
  ([Rango.r2, Rango.r3, Rango.r4, Rango.r5, Rango.r6, Rango.r7, Rango.r8,
    Rango.r9, Rango.r10, Rango.rJ, Rango.rQ, Rango.rK, Rango.rA].map
    (fun r => [Palo.picas, Palo.corazones, Palo.diamantes, Palo.treboles].map
      (fun p => (r, p)))).flatten

/-- A concrete (unshuffled) 6-deck pool of 312 cards. -/
def mazoNuevoLista : List Carta := (List.replicate 6 baraja52).flatten

/-! ## Settlement, restated in the words of the specification -/

/-- Spec wording (claim C1): the outcome record of one (hand, bet) pair
against the dealer total: bust loses, beating the dealer (or a dealer bust)
wins, equality pushes, anything else loses. -/
def resultadoSpec (total_banca : Nat) (p : List Carta × Int) : String × Int :=
  if 21 < valor_mano p.1 then ("pierde", -p.2)
  else if 21 < total_banca ∨ total_banca < valor_mano p.1 then ("gana", p.2)
  else if valor_mano p.1 = total_banca then ("empata", 0)
  else ("pierde", -p.2)

/-- Spec wording (claim C1): the balance credit for one (hand, bet) pair:
twice the bet on a win, the bet back on a push, nothing otherwise. -/
def creditoSpec (total_banca : Nat) (p : List Carta × Int) : Int :=
  if 21 < valor_mano p.1 then 0
  else if 21 < total_banca ∨ total_banca < valor_mano p.1 then 2 * p.2
  else if valor_mano p.1 = total_banca then p.2
  else 0

/-- The (hand, bet) pairs of a player, after the defensive zero padding. -/
def manosConApuesta (j : Jugador) : List (List Carta × Int) :=
  j.manos.zip (apuestasAlineadas j)

def creditosSpec (total_banca : Nat) (j : Jugador) : Int :=
  ((manosConApuesta j).map (creditoSpec total_banca)).sum

def detalleSpec (total_banca : Nat) (j : Jugador) : List Detalle :=
  (manosConApuesta j).enum.map (fun q => (j.nombre, q.1, resultadoSpec total_banca q.2))

/-- The record every player is left with after settlement: credited and
cleared for the next round. -/
def jugadorLiquidado (total_banca : Nat) (j : Jugador) : Jugador :=
  { j with saldo := j.saldo + creditosSpec total_banca j, manos := [],
           apuestas := [], espera_apuesta := false }


/-- How `repartir` relates each player to its dealt copy. -/
def RepRel (j j2 : Jugador) : Prop :=
  j2.id = j.id ∧ j2.nombre = j.nombre ∧ j2.saldo = j.saldo ∧
  j2.apuestas = j.apuestas ∧ j2.espera_apuesta = j.espera_apuesta ∧
  (j.apuestas.isEmpty = true → j2.manos = []) ∧
  (j.apuestas.isEmpty = false → ∃ c1 c2, j2.manos = [[c1, c2]])

/-- What any of the table operations can do to one player record while
keeping identity, balance, bets and the awaiting flag intact. -/
def PresRel (j j2 : Jugador) : Prop :=
  j2.id = j.id ∧ j2.nombre = j.nombre ∧ j2.saldo = j.saldo ∧
  j2.apuestas = j.apuestas ∧ j2.espera_apuesta = j.espera_apuesta ∧
  (j2.manos = j.manos ∨ j2.manos = [] ∨ ∃ c1 c2, j2.manos = [[c1, c2]])


/-- Balances are never negative and recorded bets never negative. -/
def SaldosOk (js : List Jugador) : Prop :=
  ∀ j ∈ js, 0 ≤ j.saldo ∧ ∀ a ∈ j.apuestas, 0 ≤ a

structure InvMesa (mesa : Mesa) : Prop where
  fresco : FrescoOk mesa.mazo
  cupo : mesa.jugadores.length ≤ 4
  turno : ∀ ti, mesa.turno_idx = some ti → ti < mesa.jugadores.length
  reposo : mesa.en_ronda = false → mesa.turno_idx = none
  fases : mesa.en_apuestas = true → mesa.en_ronda = false
  saldos : SaldosOk mesa.jugadores



/-! ## The draw discipline stated by the specification, and concrete states -/

/-- Modelled from the spec: the `draw()` operation of specification section
4.1, which replaces the pool by a fresh 6-deck shuffle before every single
removal whenever the current size is below 52.  The source has no such
single entry point; it calls `barajar` once per handler and then pops one
or more cards (claim C6 compares the two). -/
def drawSpec (m : Mazo) : Option (Carta × Mazo) := (m.barajar).pop

/-- Iterated spec-level draws, keeping only the pool. -/
def drawSpecN : Nat → Mazo → Option Mazo
  | 0, m => some m
  | n + 1, m =>
    match drawSpec m with
    | none => none
    | some q => drawSpecN n q.2

/-- Recognizes a targeted error event. -/
def esError : Evento → Bool
  | Evento.aUno _ (Msg.error _) => true
  | _ => false

/-- A shuffle oracle that always returns the concrete 312-card pool. -/
def frescoLleno : Nat → List Carta := fun _ => mazoNuevoLista

/-- A mid-round table where the current player has already split once and
its active hand is again a pair: seats claim C3. -/
def mesaDividirDoble : Mesa :=
  { jugadores := [⟨0, "ana", 100,
      [[(Rango.r8, Palo.picas), (Rango.r8, Palo.corazones)],
       [(Rango.r5, Palo.picas), (Rango.r5, Palo.corazones)]], [50, 50], false⟩],
    banca := [(Rango.r10, Palo.diamantes), (Rango.r7, Palo.diamantes)],
    mazo := ⟨baraja52, frescoLleno, 0⟩, en_apuestas := false, en_ronda := true,
    turno_idx := some 0, mano_turno_idx := some 0, siguiente_id := 1 }

/-- A mid-round table with one single pair hand (used to exercise an
accepted split). -/
def mesaDividirUna : Mesa :=
  { jugadores := [⟨0, "ana", 100,
      [[(Rango.r8, Palo.picas), (Rango.r8, Palo.corazones)]], [50], false⟩],
    banca := [(Rango.r10, Palo.diamantes), (Rango.r7, Palo.diamantes)],
    mazo := ⟨baraja52, frescoLleno, 0⟩, en_apuestas := false, en_ronda := true,
    turno_idx := some 0, mano_turno_idx := some 0, siguiente_id := 1 }

/-- A mid-round table with a two-card hand ready to double down. -/
def mesaDoblarW : Mesa :=
  { jugadores := [⟨0, "ana", 100,
      [[(Rango.r5, Palo.picas), (Rango.r6, Palo.corazones)]], [100], false⟩],
    banca := [(Rango.r10, Palo.diamantes), (Rango.r7, Palo.diamantes)],
    mazo := ⟨baraja52, frescoLleno, 0⟩, en_apuestas := false, en_ronda := true,
    turno_idx := some 0, mano_turno_idx := some 0, siguiente_id := 1 }

/-- Two active players mid-round, the turn on seat 0: the claim C4
disconnection scenario.  The dealer already holds 17 so resolution draws
no cards. -/
def mesaDesconexion : Mesa :=
  { jugadores :=
      [⟨0, "ana", 400, [[(Rango.r10, Palo.picas), (Rango.r8, Palo.picas)]], [100], false⟩,
       ⟨1, "beto", 400, [[(Rango.r9, Palo.picas), (Rango.r9, Palo.corazones)]], [100], false⟩],
    banca := [(Rango.r10, Palo.diamantes), (Rango.r7, Palo.diamantes)],
    mazo := ⟨[], fun _ => [], 0⟩, en_apuestas := false, en_ronda := true,
    turno_idx := some 0, mano_turno_idx := some 0, siguiente_id := 2 }

/-- An idle table (no betting phase, no round) with one seated player. -/
def mesaReposo : Mesa :=
  { jugadores := [⟨0, "ana", 500, [], [], false⟩], banca := [],
    mazo := ⟨baraja52, frescoLleno, 0⟩, en_apuestas := false, en_ronda := false,
    turno_idx := none, mano_turno_idx := none, siguiente_id := 1 }

/-- A betting phase with one bet placed and one answer pending, on a shoe
of exactly 52 cards: one more bet starts the round and deals 6 cards. -/
def mesaApuestas52 : Mesa :=
  { jugadores := [⟨0, "ana", 400, [], [100], false⟩, ⟨1, "beto", 500, [], [], true⟩],
    banca := [],
    mazo := ⟨baraja52, frescoLleno, 0⟩, en_apuestas := true, en_ronda := false,
    turno_idx := none, mano_turno_idx := none, siguiente_id := 2 }

/-- A finished round handed to the dealer: one player, two stood hands,
dealer already at 18. -/
def mesaBancaW : Mesa :=
  { jugadores := [⟨0, "ana", 300,
      [[(Rango.r10, Palo.picas), (Rango.r9, Palo.corazones)],
       [(Rango.r10, Palo.treboles), (Rango.r7, Palo.treboles)]], [100, 50], false⟩],
    banca := [(Rango.r10, Palo.diamantes), (Rango.r8, Palo.diamantes)],
    mazo := ⟨[], fun _ => [], 0⟩, en_apuestas := false, en_ronda := true,
    turno_idx := none, mano_turno_idx := none, siguiente_id := 1 }

/-- A player that cancels after an accepted bet: the stake is already
debited and the bet list non-empty. -/
def mesaCancelarW : Mesa :=
  { jugadores := [⟨0, "ana", 450, [], [50], false⟩], banca := [],
    mazo := ⟨baraja52, frescoLleno, 0⟩, en_apuestas := false, en_ronda := false,
    turno_idx := none, mano_turno_idx := none, siguiente_id := 1 }

/-- The computed outcome of dealer resolution on `mesaBancaW`. -/
def bancaWres : Mesa × List Evento := (mesaBancaW.jugar_banca).getD (mesaBancaW, [])

/-- The computed outcome of a `CANCELAR_APUESTA` on `mesaCancelarW`. -/
def cancelWres : Mesa × List Evento :=
  (manejar mesaCancelarW 0 Cmd.cancelarApuesta).getD (mesaCancelarW, [])

/-- The computed outcome of an accepted second bet on `mesaCancelarW`. -/
def reapuestaWres : Mesa × List Evento :=
  (manejar mesaCancelarW 0 (Cmd.apostar 100)).getD (mesaCancelarW, [])

/-- A short concrete session: one connection, then a bet while idle. -/
def accionesW : List Accion :=
  [Accion.conecta "ana", Accion.comando 0 (Cmd.apostar 100)]

/-- The state the concrete session ends in. -/
def ejecW : Mesa :=
  (ejecutar (mesaInicial frescoLleno) accionesW).getD (mesaInicial frescoLleno)

theorem valorDuro_pos (r : Rango) : 1 ≤ valorDuro r := by
  cases r <;> decide

theorem valorDuro_of_ne (r : Rango) (h : r ≠ Rango.rA) : valorDuro r = VALORES r := by
  cases r <;> first | rfl | exact absurd rfl h

theorem sumaCruda_eq (mano : List Carta) :
    sumaCruda mano = sumaDura mano + 10 * cuentaAses mano := by
  induction mano with
  | nil => rfl
  | cons c t ih =>
    obtain ⟨r, p⟩ := c
    have hv : VALORES r = valorDuro r + (if r = Rango.rA then 10 else 0) := by
      cases r <;> simp [VALORES, valorDuro]
    by_cases hc : r = Rango.rA
    · simp [sumaCruda, cuentaAses, sumaDura, List.filter_cons, hc, hv] at *
      omega
    · simp [sumaCruda, cuentaAses, sumaDura, List.filter_cons, hc, hv] at *
      omega

theorem sumaDura_append (mano : List Carta) (c : Carta) :
    sumaDura (mano ++ [c]) = sumaDura mano + valorDuro c.1 := by
  simp [sumaDura]

theorem sumaCruda_append (mano : List Carta) (c : Carta) :
    sumaCruda (mano ++ [c]) = sumaCruda mano + VALORES c.1 := by
  simp [sumaCruda]

theorem cuentaAses_append (mano : List Carta) (c : Carta) :
    cuentaAses (mano ++ [c]) = cuentaAses mano + (if c.1 = Rango.rA then 1 else 0) := by
  by_cases hc : c.1 = Rango.rA <;> simp [cuentaAses, List.filter_append, hc]

/-- Closed form of the ace-adjustment loop: it downgrades
`min ases ((total - 12) / 10)` aces. -/
theorem ajustarAses_eq (ases : Nat) : ∀ total : Nat,
    ajustarAses total ases = total - 10 * min ases ((total - 12) / 10) := by
  induction ases with
  | zero => intro total; simp [ajustarAses]
  | succ n ih =>
    intro total
    by_cases h : 21 < total
    · rw [ajustarAses, if_pos h, ih (total - 10)]
      omega
    · rw [ajustarAses, if_neg h]
      omega

theorem sumaDura_le_valor (mano : List Carta) : sumaDura mano ≤ valor_mano mano := by
  have h1 := ajustarAses_eq (cuentaAses mano) (sumaCruda mano)
  have h2 := sumaCruda_eq mano
  unfold valor_mano
  omega

/-- Claim C2: `valor_mano` sums the card values (ace 11, faces 10) and then,
while the sum exceeds 21 and an ace has not yet been downgraded, subtracts
10 per downgraded ace.  Stated as the closed form of that loop (the number
of downgraded aces is `min ases ((raw - 12) / 10)`), together with the
consequences: a total above 21 is only returned once every ace has been
downgraded, and the example hand of one ace pair plus a nine evaluates
to 21.  The function is pure by construction (a Lean function of the hand
value alone), so repeated calls agree and the hand is left unmodified. -/
theorem C2_valor_mano_spec :
    (∀ mano : List Carta,
      valor_mano mano =
        sumaCruda mano - 10 * min (cuentaAses mano) ((sumaCruda mano - 12) / 10)) ∧
    (∀ mano : List Carta,
      valor_mano mano ≤ 21 ∨
        valor_mano mano = sumaCruda mano - 10 * cuentaAses mano) ∧
    valor_mano [(Rango.rA, Palo.picas), (Rango.rA, Palo.corazones), (Rango.r9, Palo.picas)] = 21 := by
  refine ⟨fun mano => ajustarAses_eq _ _, fun mano => ?_, by decide⟩
  have h1 := ajustarAses_eq (cuentaAses mano) (sumaCruda mano)
  unfold valor_mano
  omega


/-! ## Shoe lemmas -/

theorem Mazo.barajar_fresco (m : Mazo) : (m.barajar).fresco = m.fresco := by
  unfold Mazo.barajar
  split <;> rfl

theorem FrescoOk.barajar {m : Mazo} (hf : FrescoOk m) : FrescoOk m.barajar := by
  intro n
  rw [Mazo.barajar_fresco]
  exact hf n

theorem Mazo.barajar_length {m : Mazo} (hf : FrescoOk m) :
    52 ≤ (m.barajar).cartas.length := by
  unfold Mazo.barajar
  split
  · show 52 ≤ (m.fresco m.usados).length
    have := hf m.usados
    omega
  · omega

theorem Mazo.pop_some {m : Mazo} (h : m.cartas ≠ []) :
    ∃ c m2, m.pop = some (c, m2) := by
  unfold Mazo.pop
  cases hL : m.cartas.getLast? with
  | some c => exact ⟨c, _, rfl⟩
  | none =>
    have := List.getLast?_isSome.2 h
    rw [hL] at this
    simp at this

theorem Mazo.pop_char {m : Mazo} {c : Carta} {m2 : Mazo} (h : m.pop = some (c, m2)) :
    m2.fresco = m.fresco ∧ m2.cartas.length + 1 = m.cartas.length := by
  unfold Mazo.pop at h
  cases hL : m.cartas.getLast? with
  | some c0 =>
    rw [hL] at h
    cases h
    have hne : m.cartas ≠ [] := by
      intro he
      rw [he] at hL
      simp at hL
    have h1 : 1 ≤ m.cartas.length := List.length_pos.2 hne
    refine ⟨rfl, ?_⟩
    simp only [List.length_dropLast]
    omega
  | none =>
    rw [hL] at h
    cases h

/-! ## Dealer loop lemmas -/

theorem bancaLoop_char : ∀ (fuel : Nat) (mz : Mazo) (b : List Carta) {mz2 : Mazo}
    {b2 : List Carta}, bancaLoop fuel mz b = some (mz2, b2) →
    17 ≤ valor_mano b2 ∧ mz2.fresco = mz.fresco ∧
    ∃ extra, b2 = b ++ extra ∧
      ∀ k < extra.length, valor_mano (b ++ extra.take k) < 17 := by
  intro fuel
  induction fuel with
  | zero =>
    intro mz b mz2 b2 h
    unfold bancaLoop at h
    split at h
    · cases h
    · cases h
      next hv =>
        exact ⟨by omega, rfl, [], by simp, fun k hk => by simp at hk⟩
  | succ n ih =>
    intro mz b mz2 b2 h
    unfold bancaLoop at h
    split at h
    · next hv =>
      cases hp : (mz.barajar).pop with
      | none => rw [hp] at h; cases h
      | some p =>
        rw [hp] at h
        obtain ⟨h17, hfr, extra, hb2, hpref⟩ := ih p.2 (b ++ [p.1]) h
        have hfr2 := (Mazo.pop_char hp).1
        refine ⟨h17, by rw [hfr, hfr2, Mazo.barajar_fresco], p.1 :: extra, by simpa using hb2, ?_⟩
        intro k hk
        cases k with
        | zero => simpa using hv
        | succ k2 =>
          have := hpref k2 (by simpa using hk)
          simpa using this
    · cases h
      next hv =>
        exact ⟨by omega, rfl, [], by simp, fun k hk => by simp at hk⟩

theorem bancaLoop_total : ∀ (fuel : Nat) (mz : Mazo) (b : List Carta),
    FrescoOk mz → 17 ≤ sumaDura b + fuel →
    ∃ mz2 b2, bancaLoop fuel mz b = some (mz2, b2) ∧ FrescoOk mz2 := by
  intro fuel
  induction fuel with
  | zero =>
    intro mz b hf hd
    have hv : ¬ valor_mano b < 17 := by
      have := sumaDura_le_valor b
      omega
    exact ⟨mz, b, by unfold bancaLoop; rw [if_neg hv], hf⟩
  | succ n ih =>
    intro mz b hf hd
    by_cases hv : valor_mano b < 17
    · have hne : (mz.barajar).cartas ≠ [] := by
        have := Mazo.barajar_length hf
        intro he
        rw [he] at this
        simp at this
      obtain ⟨c, m2, hp⟩ := Mazo.pop_some hne
      have hf2 : FrescoOk m2 := by
        intro k
        rw [(Mazo.pop_char hp).1, Mazo.barajar_fresco]
        exact hf k
      have hd2 : 17 ≤ sumaDura (b ++ [c]) + n := by
        rw [sumaDura_append]
        have := valorDuro_pos c.1
        omega
      obtain ⟨mz2, b2, hloop, hf3⟩ := ih m2 (b ++ [c]) hf2 hd2
      refine ⟨mz2, b2, ?_, hf3⟩
      unfold bancaLoop
      rw [if_pos hv, hp]
      exact hloop
    · exact ⟨mz, b, by unfold bancaLoop; rw [if_neg hv], hf⟩

theorem liquidarManos_eq (nombre : String) (tb : Nat) :
    ∀ (l : List (List Carta × Int)) (idx : Nat) (saldo : Int),
    liquidarManos nombre tb idx saldo l =
      (saldo + (l.map (creditoSpec tb)).sum,
       (l.enumFrom idx).map (fun q => (nombre, q.1, resultadoSpec tb q.2))) := by
  intro l
  induction l with
  | nil => intro idx saldo; simp [liquidarManos]
  | cons p resto ih =>
    intro idx saldo
    obtain ⟨mano, ap⟩ := p
    simp only [liquidarManos, List.map_cons, List.sum_cons, List.enumFrom_cons,
      List.map_cons, resultadoSpec, creditoSpec, ih]
    split_ifs with h1 h2 h3 <;> simp <;> ring

theorem liquidarJugador_char (tb : Nat) (j : Jugador) :
    (liquidarJugador tb j).1 =
      { j with saldo := j.saldo + creditosSpec tb j, apuestas := apuestasAlineadas j } ∧
    (liquidarJugador tb j).2 = detalleSpec tb j := by
  unfold liquidarJugador
  by_cases hm : j.manos.isEmpty
  · have hm2 : j.manos = [] := by simpa using hm
    have hz : manosConApuesta j = [] := by simp [manosConApuesta, hm2]
    have hc : creditosSpec tb j = 0 := by simp [creditosSpec, hz]
    have hd : detalleSpec tb j = [] := by simp [detalleSpec, hz]
    have ha : apuestasAlineadas j = j.apuestas := by
      simp [apuestasAlineadas, hm2]
    rw [if_pos hm]
    refine ⟨?_, hd.symm⟩
    rw [hc, ha]
    simp
  · rw [if_neg hm]
    rw [liquidarManos_eq]
    constructor
    · rfl
    · simp [detalleSpec, creditosSpec, List.enum, manosConApuesta]

theorem liquidado_eq (tb : Nat) (j : Jugador) :
    (fun j2 : Jugador => { j2 with manos := [], apuestas := [], espera_apuesta := false })
      (liquidarJugador tb j).1 = jugadorLiquidado tb j := by
  rw [(liquidarJugador_char tb j).1]
  rfl

theorem jugar_banca_char {mesa m2 : Mesa} {evs : List Evento}
    (h : mesa.jugar_banca = some (m2, evs)) :
    ∃ mz b, bancaLoop 17 mesa.mazo mesa.banca = some (mz, b) ∧
      m2.banca = b ∧ m2.mazo = mz ∧ m2.en_ronda = false ∧ m2.en_apuestas = false ∧
      m2.turno_idx = mesa.turno_idx ∧ m2.mano_turno_idx = mesa.mano_turno_idx ∧
      m2.siguiente_id = mesa.siguiente_id ∧
      m2.jugadores = mesa.jugadores.map (jugadorLiquidado (valor_mano b)) ∧
      evs = [Evento.aTodos (Msg.resultados b (valor_mano b)
              ((mesa.jugadores.map (detalleSpec (valor_mano b))).flatten))] := by
  unfold Mesa.jugar_banca at h
  cases hl : bancaLoop 17 mesa.mazo mesa.banca with
  | none => rw [hl] at h; cases h
  | some q =>
    obtain ⟨mz, b⟩ := q
    rw [hl] at h
    cases h
    refine ⟨mz, b, rfl, rfl, rfl, rfl, rfl, rfl, rfl, rfl, ?_, ?_⟩
    · rw [List.map_map, List.map_map]
      exact List.map_congr_left (fun j hj => liquidado_eq (valor_mano b) j)
    · have hsnd : List.map (Prod.snd ∘ liquidarJugador (valor_mano b)) mesa.jugadores =
          List.map (detalleSpec (valor_mano b)) mesa.jugadores :=
        List.map_congr_left (fun j hj => (liquidarJugador_char _ j).2)
      rw [List.map_map, hsnd]

theorem jugar_banca_total {mesa : Mesa} (hf : FrescoOk mesa.mazo) :
    ∃ m2 evs, mesa.jugar_banca = some (m2, evs) := by
  obtain ⟨mz, b, hl, _⟩ := bancaLoop_total 17 mesa.mazo mesa.banca hf (by omega)
  exact ⟨_, _, by unfold Mesa.jugar_banca; rw [hl]⟩

/-! ## The initial deal and index searches -/

theorem RepRel.pres {j j2 : Jugador} (h : RepRel j j2) : PresRel j j2 := by
  obtain ⟨h1, h2, h3, h4, h5, h6, h7⟩ := h
  refine ⟨h1, h2, h3, h4, h5, ?_⟩
  cases he : j.apuestas.isEmpty with
  | true => exact Or.inr (Or.inl (h6 he))
  | false => exact Or.inr (Or.inr (h7 he))

theorem PresRel.refl (j : Jugador) : PresRel j j := ⟨rfl, rfl, rfl, rfl, rfl, Or.inl rfl⟩

theorem forall2_pres_refl (l : List Jugador) : List.Forall₂ PresRel l l := by
  induction l with
  | nil => exact .nil
  | cons j t ih => exact .cons (PresRel.refl j) ih

theorem forall2_get? {α β : Type _} {R : α → β → Prop} :
    ∀ {l1 : List α} {l2 : List β}, List.Forall₂ R l1 l2 →
    ∀ i a, l1.get? i = some a → ∃ b, l2.get? i = some b ∧ R a b := by
  intro l1 l2 h
  induction h with
  | nil => intro i a ha; simp at ha
  | cons hr ht ih =>
    intro i a ha
    cases i with
    | zero => cases ha; exact ⟨_, rfl, hr⟩
    | succ n => exact ih n a ha

theorem forall2_map_eq {α β γ : Type _} {R : α → β → Prop} {f : α → γ} {g : β → γ}
    (hfg : ∀ a b, R a b → f a = g b) :
    ∀ {l1 : List α} {l2 : List β}, List.Forall₂ R l1 l2 → l1.map f = l2.map g := by
  intro l1 l2 h
  induction h with
  | nil => rfl
  | cons hr ht ih => simp [hfg _ _ hr, ih]

theorem repartir_char : ∀ (js : List Jugador) (mz : Mazo) {mz2 : Mazo} {js2 : List Jugador},
    repartir mz js = some (mz2, js2) →
    mz2.fresco = mz.fresco ∧ List.Forall₂ RepRel js js2 := by
  intro js
  induction js with
  | nil =>
    intro mz mz2 js2 h
    unfold repartir at h
    cases h
    exact ⟨rfl, .nil⟩
  | cons j resto ih =>
    intro mz mz2 js2 h
    unfold repartir at h
    by_cases ha : j.apuestas.isEmpty
    · rw [if_pos ha] at h
      cases hr : repartir mz resto with
      | none => rw [hr] at h; cases h
      | some q =>
        obtain ⟨mz3, js3⟩ := q
        rw [hr] at h
        cases h
        obtain ⟨hf, hrel⟩ := ih mz hr
        exact ⟨hf, .cons ⟨rfl, rfl, rfl, rfl, rfl, fun _ => rfl,
          fun hc => absurd ha (by simp [hc])⟩ hrel⟩
    · rw [if_neg ha] at h
      cases hp1 : mz.pop with
      | none => rw [hp1] at h; cases h
      | some p1 =>
        obtain ⟨c1, mz1⟩ := p1
        simp only [hp1] at h
        cases hp2 : mz1.pop with
        | none => simp only [hp2] at h; cases h
        | some p2 =>
          obtain ⟨c2, mzB⟩ := p2
          simp only [hp2] at h
          cases hr : repartir mzB resto with
          | none => simp only [hr] at h; cases h
          | some q =>
            obtain ⟨mz3, js3⟩ := q
            simp only [hr] at h
            cases h
            obtain ⟨hf, hrel⟩ := ih mzB hr
            refine ⟨?_, .cons ⟨rfl, rfl, rfl, rfl, rfl,
              fun hc => absurd hc (by simpa using ha), fun _ => ⟨c1, c2, rfl⟩⟩ hrel⟩
            rw [hf, (Mazo.pop_char hp2).1, (Mazo.pop_char hp1).1]

theorem repartir_total : ∀ (js : List Jugador) (mz : Mazo),
    2 * js.length ≤ mz.cartas.length →
    ∃ mz2 js2, repartir mz js = some (mz2, js2) := by
  intro js
  induction js with
  | nil => intro mz h; exact ⟨mz, [], rfl⟩
  | cons j resto ih =>
    intro mz h
    unfold repartir
    by_cases ha : j.apuestas.isEmpty
    · rw [if_pos ha]
      obtain ⟨mz2, js2, hr⟩ := ih mz (by simp at h; omega)
      exact ⟨mz2, _, by rw [hr]⟩
    · rw [if_neg ha]
      have h1 : mz.cartas ≠ [] := by
        intro he
        rw [he] at h
        simp at h
      obtain ⟨c1, mz1, hp1⟩ := Mazo.pop_some h1
      have hl1 := (Mazo.pop_char hp1).2
      have h2 : mz1.cartas ≠ [] := by
        intro he
        rw [he] at hl1
        simp at hl1
        simp [List.length_cons] at h
        omega
      obtain ⟨c2, mzB, hp2⟩ := Mazo.pop_some h2
      have hl2 := (Mazo.pop_char hp2).2
      obtain ⟨mz2, js2, hr⟩ := ih mzB (by simp at h; omega)
      simp only [hp1, hp2, hr]
      exact ⟨mz2, _, rfl⟩

theorem find_range_some {n : Nat} {p : Nat → Bool} {i : Nat}
    (h : (List.range n).find? p = some i) : i < n ∧ p i = true :=
  ⟨List.mem_range.1 (List.mem_of_find?_eq_some h), List.find?_some h⟩

theorem primer_idx_char {mesa : Mesa} {i : Nat} (h : mesa.primer_idx_activo = some i) :
    i < mesa.jugadores.length ∧ ∃ j, mesa.jugadores.get? i = some j ∧ activo j = true := by
  unfold Mesa.primer_idx_activo at h
  obtain ⟨hin, hp⟩ := find_range_some h
  refine ⟨hin, ?_⟩
  cases hg : mesa.jugadores.get? i with
  | none => rw [hg] at hp; simp at hp
  | some j => rw [hg] at hp; exact ⟨j, rfl, by simpa using hp⟩

theorem siguiente_idx_char {mesa : Mesa} {ti i : Nat}
    (h : mesa.siguiente_idx_activo ti = some i) :
    ti < i ∧ i < mesa.jugadores.length ∧
    ∃ j, mesa.jugadores.get? i = some j ∧ activo j = true := by
  unfold Mesa.siguiente_idx_activo at h
  obtain ⟨hin, hp⟩ := find_range_some h
  rw [Bool.and_eq_true] at hp
  refine ⟨by simpa using hp.1, hin, ?_⟩
  cases hg : mesa.jugadores.get? i with
  | none =>
    have hp2 := hp.2
    rw [hg] at hp2
    simp at hp2
  | some j =>
    have hp2 := hp.2
    rw [hg] at hp2
    exact ⟨j, rfl, by simpa using hp2⟩

/-! ## Characterizations of the phase transitions -/

theorem evaluar_char {mesa m2 : Mesa} {evs : List Evento}
    (h : mesa.evaluar_inicio_ronda = some (m2, evs)) :
    (m2 = mesa ∧ evs = []) ∨
    (m2 = { mesa with en_apuestas := false } ∧
       evs = [Evento.aTodos (Msg.info "Nadie apostó. Apuestas canceladas."),
              estadoEv m2]) ∨
    (m2.en_ronda = true ∧ m2.en_apuestas = false ∧
     m2.turno_idx = m2.primer_idx_activo ∧
     m2.siguiente_id = mesa.siguiente_id ∧
     m2.mazo.fresco = mesa.mazo.fresco ∧
     (∃ c1 c2, m2.banca = [c1, c2]) ∧
     List.Forall₂ RepRel mesa.jugadores m2.jugadores ∧
     evs = [Evento.aTodos Msg.rondaIniciada, estadoEv m2]) := by
  unfold Mesa.evaluar_inicio_ronda at h
  dsimp only at h
  split at h
  · cases h; exact Or.inl ⟨rfl, rfl⟩
  · split at h
    · cases h; exact Or.inl ⟨rfl, rfl⟩
    · split at h
      · cases h; exact Or.inl ⟨rfl, rfl⟩
      · split at h
        · cases h; exact Or.inr (Or.inl ⟨rfl, rfl⟩)
        · cases hp1 : (mesa.mazo.barajar).pop with
          | none => simp only [hp1] at h; cases h
          | some p1 =>
            obtain ⟨c1, mz1⟩ := p1
            simp only [hp1] at h
            cases hp2 : mz1.pop with
            | none => simp only [hp2] at h; cases h
            | some p2 =>
              obtain ⟨c2, mzB⟩ := p2
              simp only [hp2] at h
              cases hr : repartir mzB mesa.jugadores with
              | none => simp only [hr] at h; cases h
              | some q =>
                obtain ⟨mz3, js⟩ := q
                simp only [hr] at h
                cases h
                obtain ⟨hfr, hrel⟩ := repartir_char _ _ hr
                refine Or.inr (Or.inr ⟨rfl, rfl, rfl, rfl, ?_, ⟨c1, c2, rfl⟩,
                  hrel, rfl⟩)
                rw [hfr, (Mazo.pop_char hp2).1, (Mazo.pop_char hp1).1,
                  Mazo.barajar_fresco]

theorem evaluar_total {mesa : Mesa} (hf : FrescoOk mesa.mazo)
    (hcupo : mesa.jugadores.length ≤ 4) :
    ∃ m2 evs, mesa.evaluar_inicio_ronda = some (m2, evs) := by
  unfold Mesa.evaluar_inicio_ronda
  dsimp only
  split
  · exact ⟨_, _, rfl⟩
  · split
    · exact ⟨_, _, rfl⟩
    · split
      · exact ⟨_, _, rfl⟩
      · split
        · exact ⟨_, _, rfl⟩
        · have hb : 52 ≤ (mesa.mazo.barajar).cartas.length := Mazo.barajar_length hf
          have h1 : (mesa.mazo.barajar).cartas ≠ [] := by
            intro he; rw [he] at hb; simp at hb
          obtain ⟨c1, mz1, hp1⟩ := Mazo.pop_some h1
          have hl1 := (Mazo.pop_char hp1).2
          have h2 : mz1.cartas ≠ [] := by
            intro he; rw [he] at hl1; simp at hl1; omega
          obtain ⟨c2, mzB, hp2⟩ := Mazo.pop_some h2
          have hl2 := (Mazo.pop_char hp2).2
          obtain ⟨mz3, js, hr⟩ := repartir_total mesa.jugadores mzB (by omega)
          simp only [hp1, hp2, hr]
          exact ⟨_, _, rfl⟩

theorem avanzar_char {mesa m2 : Mesa} {ti : Nat} {evs : List Evento}
    (h : mesa.avanzarJugador ti = some (m2, evs)) :
    (∃ nxt, ti < nxt ∧ nxt < mesa.jugadores.length ∧
       m2 = { mesa with turno_idx := some nxt, mano_turno_idx := some 0 } ∧
       evs = [estadoEv m2]) ∨
    (∃ b, m2.en_ronda = false ∧ m2.en_apuestas = false ∧ m2.turno_idx = none ∧
       m2.mano_turno_idx = none ∧ m2.siguiente_id = mesa.siguiente_id ∧
       m2.mazo.fresco = mesa.mazo.fresco ∧ m2.banca = b ∧
       m2.jugadores = mesa.jugadores.map (jugadorLiquidado (valor_mano b)) ∧
       evs = [Evento.aTodos (Msg.resultados b (valor_mano b)
         ((mesa.jugadores.map (detalleSpec (valor_mano b))).flatten))]) := by
  unfold Mesa.avanzarJugador at h
  dsimp only at h
  cases hs : mesa.siguiente_idx_activo ti with
  | none =>
    simp only [hs] at h
    obtain ⟨mz, b, hl, hb, hmz, hr, ha, ht, hm, hsig, hjs, hevs⟩ := jugar_banca_char h
    refine Or.inr ⟨b, hr, ha, ht, hm, hsig, ?_, hb, hjs, hevs⟩
    rw [hmz]
    exact (bancaLoop_char 17 _ _ hl).2.1
  | some nxt =>
    simp only [hs] at h
    cases h
    obtain ⟨h1, h2, _⟩ := siguiente_idx_char hs
    exact Or.inl ⟨nxt, h1, h2, rfl, rfl⟩

theorem siguiente_turno_char {mesa m2 : Mesa} {evs : List Evento}
    (h : mesa.siguiente_turno = some (m2, evs)) :
    ((mesa.turno_idx = none ∨ mesa.en_ronda = false) ∧ m2 = mesa ∧ evs = []) ∨
    (mesa.en_ronda = true ∧
      (∃ ti actual, mesa.turno_idx = some ti ∧
         mesa.jugadores.get? ti = some actual) ∧
      m2 = { mesa with mano_turno_idx := some (mesa.mano_turno_idx.getD 0 + 1) } ∧
      evs = [estadoEv m2]) ∨
    (∃ ti nxt, mesa.turno_idx = some ti ∧ ti < nxt ∧ nxt < mesa.jugadores.length ∧
       m2 = { mesa with turno_idx := some nxt, mano_turno_idx := some 0 } ∧
       evs = [estadoEv m2]) ∨
    (∃ b, m2.en_ronda = false ∧ m2.en_apuestas = false ∧ m2.turno_idx = none ∧
       m2.mano_turno_idx = none ∧ m2.siguiente_id = mesa.siguiente_id ∧
       m2.mazo.fresco = mesa.mazo.fresco ∧ m2.banca = b ∧
       m2.jugadores = mesa.jugadores.map (jugadorLiquidado (valor_mano b)) ∧
       evs = [Evento.aTodos (Msg.resultados b (valor_mano b)
         ((mesa.jugadores.map (detalleSpec (valor_mano b))).flatten))]) := by
  unfold Mesa.siguiente_turno at h
  dsimp only at h
  cases hti : mesa.turno_idx with
  | none =>
    simp only [hti] at h
    cases h
    exact Or.inl ⟨Or.inl rfl, rfl, rfl⟩
  | some ti =>
    simp only [hti] at h
    split at h
    · cases h
      next hr => exact Or.inl ⟨Or.inr hr, rfl, rfl⟩
    · next hr =>
      have hronda : mesa.en_ronda = true := by
        cases hv : mesa.en_ronda with
        | false => exact absurd hv hr
        | true => rfl
      cases hg : mesa.jugadores.get? ti with
      | none =>
        simp only [hg] at h
        rcases avanzar_char h with ⟨nxt, h1, h2, h3, h4⟩ | hjb
        · exact Or.inr (Or.inr (Or.inl ⟨ti, nxt, rfl, h1, h2, h3, h4⟩))
        · exact Or.inr (Or.inr (Or.inr hjb))
      | some actual =>
        simp only [hg] at h
        split at h
        · rcases avanzar_char h with ⟨nxt, h1, h2, h3, h4⟩ | hjb
          · exact Or.inr (Or.inr (Or.inl ⟨ti, nxt, rfl, h1, h2, h3, h4⟩))
          · exact Or.inr (Or.inr (Or.inr hjb))
        · split at h
          · cases h
            exact Or.inr (Or.inl ⟨hronda, ⟨ti, actual, rfl, hg⟩, rfl, rfl⟩)
          · rcases avanzar_char h with ⟨nxt, h1, h2, h3, h4⟩ | hjb
            · exact Or.inr (Or.inr (Or.inl ⟨ti, nxt, rfl, h1, h2, h3, h4⟩))
            · exact Or.inr (Or.inr (Or.inr hjb))

theorem avanzar_total {mesa : Mesa} (hf : FrescoOk mesa.mazo) (ti : Nat) :
    ∃ m2 evs, mesa.avanzarJugador ti = some (m2, evs) := by
  unfold Mesa.avanzarJugador
  cases hs : mesa.siguiente_idx_activo ti with
  | none =>
    simp only [hs]
    exact jugar_banca_total hf
  | some nxt =>
    simp only [hs]
    exact ⟨_, _, rfl⟩

theorem siguiente_turno_total {mesa : Mesa} (hf : FrescoOk mesa.mazo) :
    ∃ m2 evs, mesa.siguiente_turno = some (m2, evs) := by
  unfold Mesa.siguiente_turno
  dsimp only
  cases hti : mesa.turno_idx with
  | none =>
    simp only [hti]
    exact ⟨_, _, rfl⟩
  | some ti =>
    simp only [hti]
    split
    · exact ⟨_, _, rfl⟩
    · cases hg : mesa.jugadores.get? ti with
      | none =>
        simp only [hg]
        exact avanzar_total hf ti
      | some actual =>
        simp only [hg]
        split
        · exact avanzar_total hf ti
        · split
          · exact ⟨_, _, rfl⟩
          · exact avanzar_total hf ti

/-! ## The invariant of reachable table states -/

theorem saldosOk_set {js : List Jugador} {i : Nat} {j2 : Jugador}
    (hs : SaldosOk js) (h0 : 0 ≤ j2.saldo) (ha : ∀ a ∈ j2.apuestas, 0 ≤ a) :
    SaldosOk (js.set i j2) := by
  intro x hx
  rcases List.mem_or_eq_of_mem_set hx with hm | he
  · exact hs x hm
  · rw [he]; exact ⟨h0, ha⟩

theorem saldosOk_pres {js js2 : List Jugador} (hs : SaldosOk js)
    (hrel : List.Forall₂ PresRel js js2) : SaldosOk js2 := by
  induction hrel with
  | nil => intro x hx; simp at hx
  | cons hr ht ih =>
    next a b l1 l2 =>
      intro x hx
      rcases List.mem_cons.1 hx with he | hm
      · obtain ⟨_, _, hsal, hap, _, _⟩ := hr
        have := hs a (List.mem_cons_self a l1)
        rw [he, hsal, hap]
        exact this
      · exact ih (fun y hy => hs y (List.mem_cons_of_mem a hy)) x hm

theorem apuestasAlineadas_nonneg {j : Jugador} (h : ∀ a ∈ j.apuestas, 0 ≤ a) :
    ∀ a ∈ apuestasAlineadas j, 0 ≤ a := by
  intro a ha
  rcases List.mem_append.1 ha with hm | hm
  · exact h a hm
  · rw [(List.mem_replicate.1 hm).2]

theorem creditoSpec_nonneg {tb : Nat} {p : List Carta × Int} (h : 0 ≤ p.2) :
    0 ≤ creditoSpec tb p := by
  unfold creditoSpec
  split_ifs <;> omega

theorem creditosSpec_nonneg {tb : Nat} {j : Jugador}
    (h : ∀ a ∈ j.apuestas, 0 ≤ a) : 0 ≤ creditosSpec tb j := by
  refine List.sum_nonneg ?_
  intro x hx
  obtain ⟨p, hp, he⟩ := List.mem_map.1 hx
  rw [← he]
  obtain ⟨m, a⟩ := p
  exact creditoSpec_nonneg ((apuestasAlineadas_nonneg h) a (List.of_mem_zip hp).2)

theorem saldosOk_liquidado {tb : Nat} {js : List Jugador} (hs : SaldosOk js) :
    SaldosOk (js.map (jugadorLiquidado tb)) := by
  intro x hx
  obtain ⟨j, hj, he⟩ := List.mem_map.1 hx
  obtain ⟨h0, ha⟩ := hs j hj
  rw [← he]
  refine ⟨?_, by simp [jugadorLiquidado]⟩
  show 0 ≤ j.saldo + creditosSpec tb j
  have := @creditosSpec_nonneg tb j ha
  omega

theorem conIdx_char {mesa : Mesa} {pid i : Nat} {j : Jugador}
    (h : mesa.conIdx pid = some (i, j)) :
    mesa.jugadores.get? i = some j ∧ i < mesa.jugadores.length := by
  unfold Mesa.conIdx at h
  cases hf : mesa.jugadores.findIdx? (fun j => decide (j.id = pid)) with
  | none => rw [hf] at h; cases h
  | some i0 =>
    simp only [hf] at h
    cases hg : mesa.jugadores.get? i0 with
    | none => simp only [hg, Option.map_none'] at h; cases h
    | some j0 =>
      simp only [hg, Option.map_some'] at h
      cases h
      refine ⟨hg, ?_⟩
      by_contra hlt
      rw [List.get?_eq_none.2 (by omega)] at hg
      cases hg

theorem inv_evaluar {mesa m2 : Mesa} {evs : List Evento} (hI : InvMesa mesa)
    (h : mesa.evaluar_inicio_ronda = some (m2, evs)) : InvMesa m2 := by
  rcases evaluar_char h with ⟨he, _⟩ | ⟨he, _⟩ |
    ⟨hr, ha, ht, hsig, hfr, _, hrel, _⟩
  · rw [he]; exact hI
  · rw [he]
    refine ⟨hI.fresco, hI.cupo, hI.turno, hI.reposo, ?_, hI.saldos⟩
    intro hc
    cases hc
  · have hlen := List.Forall₂.length_eq hrel
    have hc4 := hI.cupo
    refine ⟨?_, ?_, ?_, ?_, ?_, ?_⟩
    · intro n; rw [hfr]; exact hI.fresco n
    · omega
    · intro t2 ht2
      rw [ht] at ht2
      exact (primer_idx_char ht2).1
    · intro hc; rw [hr] at hc; cases hc
    · intro hc; rw [ha] at hc; cases hc
    · exact saldosOk_pres hI.saldos
        (List.Forall₂.imp (fun a b hab => hab.pres) hrel)

theorem inv_siguiente {mesa m2 : Mesa} {evs : List Evento}
    (hf : FrescoOk mesa.mazo) (hcupo : mesa.jugadores.length ≤ 4)
    (hsal : SaldosOk mesa.jugadores) (hr : mesa.en_ronda = true)
    (hfase : mesa.en_apuestas = true → mesa.en_ronda = false)
    (h : mesa.siguiente_turno = some (m2, evs)) : InvMesa m2 := by
  have hap : mesa.en_apuestas = false := by
    cases ha : mesa.en_apuestas with
    | false => rfl
    | true => rw [hfase ha] at hr; cases hr
  rcases siguiente_turno_char h with ⟨hc, he, _⟩ |
    ⟨_, ⟨ti, actual, hti, hg⟩, he, _⟩ |
    ⟨ti, nxt, hti, h1, h2, he, _⟩ | ⟨b, h1, h2, h3, h4, _, hfr, _, hjs, _⟩
  · rw [he]
    have ht : mesa.turno_idx = none := by
      rcases hc with hc | hc
      · exact hc
      · rw [hc] at hr; cases hr
    refine ⟨hf, hcupo, ?_, fun _ => ht, ?_, hsal⟩
    · intro t2 ht2
      rw [ht] at ht2
      cases ht2
    · intro hc2
      rw [hap] at hc2
      cases hc2
  · rw [he]
    refine ⟨hf, hcupo, ?_, ?_, ?_, hsal⟩
    · intro t2 ht2
      simp only at ht2
      rw [hti] at ht2
      cases ht2
      show ti < mesa.jugadores.length
      by_contra hge
      rw [List.get?_eq_none.2 (by omega)] at hg
      cases hg
    · intro hc2; rw [hc2] at hr; cases hr
    · intro hc2; rw [hap] at hc2; cases hc2
  · rw [he]
    refine ⟨hf, hcupo, ?_, ?_, ?_, hsal⟩
    · intro t2 ht2
      simp only at ht2
      cases ht2
      exact h2
    · intro hc2; rw [hc2] at hr; cases hr
    · intro hc2; rw [hap] at hc2; cases hc2
  · refine ⟨?_, ?_, ?_, ?_, ?_, ?_⟩
    · intro n; rw [hfr]; exact hf n
    · rw [hjs]; simp; omega
    · intro t2 ht2; rw [h3] at ht2; cases ht2
    · intro _; exact h3
    · intro hc2; rw [h2] at hc2; cases hc2
    · rw [hjs]; exact saldosOk_liquidado hsal

theorem bool_true_of_not_false {b : Bool} (h : ¬ b = false) : b = true := by
  cases b
  · exact absurd rfl h
  · rfl

theorem getD_mem_of_lt {α : Type _} {l : List α} {n : Nat} (d : α)
    (h : n < l.length) : l.getD n d ∈ l := by
  have h2 : l.get? n = some (l.get ⟨n, h⟩) := List.get?_eq_get h
  have h3 : l.getD n d = l.get ⟨n, h⟩ := by
    rw [List.getD_eq_get?, h2]
    rfl
  rw [h3]
  exact List.get_mem l n h

theorem mem_insertarEn {α : Type _} {a x : α} {n : Nat} {l : List α}
    (h : a ∈ insertarEn n x l) : a ∈ l ∨ a = x := by
  unfold insertarEn at h
  rcases List.mem_append.1 h with hm | hm
  · exact Or.inl (List.mem_of_mem_take hm)
  · rcases List.mem_cons.1 hm with he | hm
    · exact Or.inr he
    · exact Or.inl (List.mem_of_mem_drop hm)

/-- Invariant preservation for updating one player in place (optionally
with a shoe that kept its oracle). -/
theorem inv_set_jugador {mesa : Mesa} (hI : InvMesa mesa) {ti : Nat} {j2 : Jugador}
    (h0 : 0 ≤ j2.saldo) (ha : ∀ a ∈ j2.apuestas, 0 ≤ a) {mz2 : Mazo}
    (hfr : mz2.fresco = mesa.mazo.fresco) :
    InvMesa { mesa with jugadores := mesa.jugadores.set ti j2, mazo := mz2 } := by
  refine ⟨?_, ?_, ?_, ?_, ?_, ?_⟩
  · intro n
    show (mz2.fresco n).length = 312
    rw [hfr]
    exact hI.fresco n
  · show (mesa.jugadores.set ti j2).length ≤ 4
    rw [List.length_set]
    exact hI.cupo
  · intro t2 ht2
    show t2 < (mesa.jugadores.set ti j2).length
    rw [List.length_set]
    exact hI.turno t2 ht2
  · exact hI.reposo
  · exact hI.fases
  · exact saldosOk_set hI.saldos h0 ha

/-- `siguiente_turno` always succeeds from an in-round state satisfying the
balance and shoe conditions, and the result satisfies the invariant. -/
theorem sig_step {mesa : Mesa} (hf : FrescoOk mesa.mazo)
    (hcupo : mesa.jugadores.length ≤ 4) (hsal : SaldosOk mesa.jugadores)
    (hr : mesa.en_ronda = true)
    (hfase : mesa.en_apuestas = true → mesa.en_ronda = false) :
    ∃ m2 evs, mesa.siguiente_turno = some (m2, evs) ∧ InvMesa m2 := by
  obtain ⟨m2, evs, hst⟩ := siguiente_turno_total hf
  exact ⟨m2, evs, hst, inv_siguiente hf hcupo hsal hr hfase hst⟩

/-- `evaluar_inicio_ronda` always succeeds from an invariant state and
preserves the invariant. -/
theorem ev_step {mesa : Mesa} (hI : InvMesa mesa) :
    ∃ m2 evs, mesa.evaluar_inicio_ronda = some (m2, evs) ∧ InvMesa m2 := by
  obtain ⟨m2, evs, hev⟩ := evaluar_total hI.fresco hI.cupo
  exact ⟨m2, evs, hev, inv_evaluar hI hev⟩

/-- Every decoded command is handled without raising (the model never hits
`none`) and preserves the invariant. -/
theorem manejar_step {mesa : Mesa} (hI : InvMesa mesa) (pid : Nat) (c : Cmd) :
    ∃ m2 evs, manejar mesa pid c = some (m2, evs) ∧ InvMesa m2 := by
  cases c with
  | configurarNombre nombre =>
    unfold manejar
    dsimp only
    cases hc : mesa.conIdx pid with
    | none =>
      simp only [hc]
      exact ⟨_, _, rfl, hI⟩
    | some q =>
      obtain ⟨i, j⟩ := q
      simp only [hc]
      refine ⟨_, _, rfl, ?_⟩
      have hj := hI.saldos j (List.get?_mem (conIdx_char hc).1)
      exact @inv_set_jugador mesa hI i { j with nombre := nombre } hj.1 hj.2 mesa.mazo rfl
  | iniciar =>
    unfold manejar
    dsimp only
    split
    · next hcond =>
      refine ⟨_, _, rfl, ?_⟩
      refine ⟨hI.fresco, ?_, ?_, ?_, ?_, ?_⟩
      · show (mesa.jugadores.map _).length ≤ 4
        rw [List.length_map]
        exact hI.cupo
      · intro t2 ht2
        show t2 < (mesa.jugadores.map _).length
        rw [List.length_map]
        exact hI.turno t2 ht2
      · intro _
        exact hI.reposo hcond.1
      · intro _
        rfl
      · intro x hx
        obtain ⟨j, hj, he⟩ := List.mem_map.1 hx
        rw [← he]
        refine ⟨(hI.saldos j hj).1, ?_⟩
        intro a ha
        simp at ha
    · exact ⟨_, _, rfl, hI⟩
  | apostar monto =>
    unfold manejar
    dsimp only
    by_cases hm : monto ≤ 0
    · rw [if_pos hm]
      exact ⟨_, _, rfl, hI⟩
    · rw [if_neg hm]
      cases hc : mesa.conIdx pid with
      | none =>
        simp only [hc]
        exact ⟨_, _, rfl, hI⟩
      | some q =>
        obtain ⟨i, j⟩ := q
        simp only [hc]
        by_cases hs : j.saldo < monto
        · rw [if_pos hs]
          exact ⟨_, _, rfl, hI⟩
        · rw [if_neg hs]
          have hIm := @inv_set_jugador mesa hI i { j with saldo := j.saldo - monto, apuestas := [monto], manos := [], espera_apuesta := false } (by show 0 ≤ j.saldo - monto; omega) (by intro a ha; simp at ha; omega) mesa.mazo rfl
          obtain ⟨m2, evs, hev, hI2⟩ := ev_step hIm
          simp only [hev]
          exact ⟨_, _, rfl, hI2⟩
  | cancelarApuesta =>
    unfold manejar
    dsimp only
    cases hc : mesa.conIdx pid with
    | none =>
      simp only [hc]
      exact ⟨_, _, rfl, hI⟩
    | some q =>
      obtain ⟨i, j⟩ := q
      simp only [hc]
      have hIm := @inv_set_jugador mesa hI i { j with apuestas := [], manos := [], espera_apuesta := false } (hI.saldos j (List.get?_mem (conIdx_char hc).1)).1 (by intro a ha; simp at ha) mesa.mazo rfl
      obtain ⟨m2, evs, hev, hI2⟩ := ev_step hIm
      simp only [hev]
      exact ⟨_, _, rfl, hI2⟩
  | subir =>
    unfold manejar
    dsimp only
    by_cases hrf : mesa.en_ronda = false
    · rw [if_pos hrf]
      exact ⟨_, _, rfl, hI⟩
    · rw [if_neg hrf]
      have hr := bool_true_of_not_false hrf
      cases hti : mesa.turno_idx with
      | none =>
        simp only [hti]
        exact ⟨_, _, rfl, hI⟩
      | some ti =>
        simp only [hti]
        have hlt := hI.turno ti hti
        cases hg : mesa.jugadores.get? ti with
        | none =>
          have := List.get?_eq_none.1 hg
          omega
        | some j =>
          simp only [hg]
          by_cases hid : j.id ≠ pid
          · rw [if_pos hid]
            exact ⟨_, _, rfl, hI⟩
          · rw [if_neg hid]
            by_cases hmi : j.manos.length ≤ mesa.mano_turno_idx.getD 0
            · rw [if_pos hmi]
              exact ⟨_, _, rfl, hI⟩
            · rw [if_neg hmi]
              have hb := Mazo.barajar_length hI.fresco
              have hne : (mesa.mazo.barajar).cartas ≠ [] := by
                intro he
                rw [he] at hb
                simp at hb
              obtain ⟨carta, mz2, hp⟩ := Mazo.pop_some hne
              have hfr2 : mz2.fresco = mesa.mazo.fresco := by
                rw [(Mazo.pop_char hp).1, Mazo.barajar_fresco]
              simp only [hp]
              have hj := hI.saldos j (List.get?_mem hg)
              have hIm := @inv_set_jugador mesa hI ti { j with manos := j.manos.set (mesa.mano_turno_idx.getD 0) (j.manos.getD (mesa.mano_turno_idx.getD 0) [] ++ [carta]) } hj.1 hj.2 mz2 hfr2
              rw [hti] at hIm
              split
              · obtain ⟨m3, evs1, hst, hI3⟩ := sig_step hIm.fresco hIm.cupo
                  hIm.saldos hr hI.fases
                simp only [hst]
                exact ⟨_, _, rfl, hI3⟩
              · exact ⟨_, _, rfl, hIm⟩
  | quedarse =>
    unfold manejar
    dsimp only
    by_cases hrf : mesa.en_ronda = false
    · rw [if_pos hrf]
      exact ⟨_, _, rfl, hI⟩
    · rw [if_neg hrf]
      have hr := bool_true_of_not_false hrf
      cases hti : mesa.turno_idx with
      | none =>
        simp only [hti]
        exact ⟨_, _, rfl, hI⟩
      | some ti =>
        simp only [hti]
        have hlt := hI.turno ti hti
        cases hg : mesa.jugadores.get? ti with
        | none =>
          have := List.get?_eq_none.1 hg
          omega
        | some j =>
          simp only [hg]
          by_cases hid : j.id ≠ pid
          · rw [if_pos hid]
            exact ⟨_, _, rfl, hI⟩
          · rw [if_neg hid]
            obtain ⟨m3, evs1, hst, hI3⟩ := sig_step hI.fresco hI.cupo
              hI.saldos hr hI.fases
            simp only [hst]
            exact ⟨_, _, rfl, hI3⟩
  | doblar =>
    unfold manejar
    dsimp only
    by_cases hrf : mesa.en_ronda = false
    · rw [if_pos hrf]
      exact ⟨_, _, rfl, hI⟩
    · rw [if_neg hrf]
      have hr := bool_true_of_not_false hrf
      cases hti : mesa.turno_idx with
      | none =>
        simp only [hti]
        exact ⟨_, _, rfl, hI⟩
      | some ti =>
        simp only [hti]
        have hlt := hI.turno ti hti
        cases hg : mesa.jugadores.get? ti with
        | none =>
          have := List.get?_eq_none.1 hg
          omega
        | some j =>
          simp only [hg]
          by_cases hid : j.id ≠ pid
          · rw [if_pos hid]
            exact ⟨_, _, rfl, hI⟩
          · rw [if_neg hid]
            by_cases hmi : j.manos.length ≤ mesa.mano_turno_idx.getD 0 ∨
                j.apuestas.length ≤ mesa.mano_turno_idx.getD 0
            · rw [if_pos hmi]
              exact ⟨_, _, rfl, hI⟩
            · rw [if_neg hmi]
              by_cases h2c : (j.manos.getD (mesa.mano_turno_idx.getD 0) []).length ≠ 2
              · rw [if_pos h2c]
                exact ⟨_, _, rfl, hI⟩
              · rw [if_neg h2c]
                by_cases hsf : j.saldo < j.apuestas.getD (mesa.mano_turno_idx.getD 0) 0
                · rw [if_pos hsf]
                  exact ⟨_, _, rfl, hI⟩
                · rw [if_neg hsf]
                  have hb := Mazo.barajar_length hI.fresco
                  have hne : (mesa.mazo.barajar).cartas ≠ [] := by
                    intro he
                    rw [he] at hb
                    simp at hb
                  obtain ⟨carta, mz2, hp⟩ := Mazo.pop_some hne
                  have hfr2 : mz2.fresco = mesa.mazo.fresco := by
                    rw [(Mazo.pop_char hp).1, Mazo.barajar_fresco]
                  simp only [hp]
                  have hj := hI.saldos j (List.get?_mem hg)
                  have hap0 : 0 ≤ j.apuestas.getD (mesa.mano_turno_idx.getD 0) 0 :=
                    hj.2 _ (getD_mem_of_lt 0 (by omega))
                  have hIm := @inv_set_jugador mesa hI ti { j with saldo := j.saldo - j.apuestas.getD (mesa.mano_turno_idx.getD 0) 0, apuestas := j.apuestas.set (mesa.mano_turno_idx.getD 0) (j.apuestas.getD (mesa.mano_turno_idx.getD 0) 0 + j.apuestas.getD (mesa.mano_turno_idx.getD 0) 0), manos := j.manos.set (mesa.mano_turno_idx.getD 0) (j.manos.getD (mesa.mano_turno_idx.getD 0) [] ++ [carta]) } (by show 0 ≤ j.saldo - _; omega) (by intro a ha; rcases List.mem_or_eq_of_mem_set ha with hm2 | he2; exact hj.2 a hm2; omega) mz2 hfr2
                  rw [hti] at hIm
                  obtain ⟨m3, evs1, hst, hI3⟩ := sig_step hIm.fresco hIm.cupo
                    hIm.saldos hr hI.fases
                  simp only [hst]
                  exact ⟨_, _, rfl, hI3⟩
  | dividir =>
    unfold manejar
    dsimp only
    by_cases hrf : mesa.en_ronda = false
    · rw [if_pos hrf]
      exact ⟨_, _, rfl, hI⟩
    · rw [if_neg hrf]
      have hr := bool_true_of_not_false hrf
      cases hti : mesa.turno_idx with
      | none =>
        simp only [hti]
        exact ⟨_, _, rfl, hI⟩
      | some ti =>
        simp only [hti]
        have hlt := hI.turno ti hti
        cases hg : mesa.jugadores.get? ti with
        | none =>
          have := List.get?_eq_none.1 hg
          omega
        | some j =>
          simp only [hg]
          by_cases hid : j.id ≠ pid
          · rw [if_pos hid]
            exact ⟨_, _, rfl, hI⟩
          · rw [if_neg hid]
            by_cases hmi : j.manos.length ≤ mesa.mano_turno_idx.getD 0 ∨
                j.apuestas.length ≤ mesa.mano_turno_idx.getD 0
            · rw [if_pos hmi]
              exact ⟨_, _, rfl, hI⟩
            · rw [if_neg hmi]
              rcases hmano : j.manos.getD (mesa.mano_turno_idx.getD 0) [] with
                _ | ⟨c1, _ | ⟨c2, _ | ⟨c3, t⟩⟩⟩
              · simp only [hmano]
                exact ⟨_, _, rfl, hI⟩
              · simp only [hmano]
                exact ⟨_, _, rfl, hI⟩
              · simp only [hmano]
                by_cases hcond : c1.1 = c2.1 ∧
                    j.apuestas.getD (mesa.mano_turno_idx.getD 0) 0 ≤ j.saldo
                · rw [if_pos hcond]
                  have hb := Mazo.barajar_length hI.fresco
                  have hne : (mesa.mazo.barajar).cartas ≠ [] := by
                    intro he
                    rw [he] at hb
                    simp at hb
                  obtain ⟨n1, mz1, hp1⟩ := Mazo.pop_some hne
                  have hl1 := (Mazo.pop_char hp1).2
                  have hne2 : mz1.cartas ≠ [] := by
                    intro he
                    rw [he] at hl1
                    simp at hl1
                    omega
                  obtain ⟨n2, mz2, hp2⟩ := Mazo.pop_some hne2
                  have hfr2 : mz2.fresco = mesa.mazo.fresco := by
                    rw [(Mazo.pop_char hp2).1, (Mazo.pop_char hp1).1,
                      Mazo.barajar_fresco]
                  simp only [hp1, hp2]
                  have hj := hI.saldos j (List.get?_mem hg)
                  have hap0 : 0 ≤ j.apuestas.getD (mesa.mano_turno_idx.getD 0) 0 :=
                    hj.2 _ (getD_mem_of_lt 0 (by omega))
                  have hIm := @inv_set_jugador mesa hI ti { j with saldo := j.saldo - j.apuestas.getD (mesa.mano_turno_idx.getD 0) 0, manos := insertarEn (mesa.mano_turno_idx.getD 0 + 1) [c2, n2] (j.manos.set (mesa.mano_turno_idx.getD 0) [c1, n1]), apuestas := insertarEn (mesa.mano_turno_idx.getD 0 + 1) (j.apuestas.getD (mesa.mano_turno_idx.getD 0) 0) j.apuestas } (by show 0 ≤ j.saldo - _; omega) (by intro a ha; rcases mem_insertarEn ha with hm2 | he2; exact hj.2 a hm2; omega) mz2 hfr2
                  rw [hti] at hIm
                  exact ⟨_, _, rfl, hIm⟩
                · rw [if_neg hcond]
                  exact ⟨_, _, rfl, hI⟩
              · simp only [hmano]
                exact ⟨_, _, rfl, hI⟩

theorem inv_conectar {mesa : Mesa} (hI : InvMesa mesa) (nombre : String) :
    InvMesa (conectar mesa nombre).1 := by
  unfold conectar
  split
  · exact hI
  · next hlen =>
    dsimp only
    refine ⟨hI.fresco, ?_, ?_, hI.reposo, hI.fases, ?_⟩
    · show (mesa.jugadores ++ [_]).length ≤ 4
      rw [List.length_append]
      simp only [List.length_singleton]
      omega
    · intro t2 ht2
      show t2 < (mesa.jugadores ++ [_]).length
      rw [List.length_append]
      have := hI.turno t2 ht2
      omega
    · intro x hx
      rcases List.mem_append.1 hx with hm | hm
      · exact hI.saldos x hm
      · simp only [List.mem_singleton] at hm
        rw [hm]
        refine ⟨by norm_num, ?_⟩
        intro a ha
        simp at ha

theorem desconectar_step {mesa : Mesa} (hI : InvMesa mesa) (pid : Nat) :
    ∃ m2 evs, desconectar mesa pid = some (m2, evs) ∧ InvMesa m2 := by
  unfold desconectar
  cases hc : mesa.conIdx pid with
  | none =>
    simp only [hc]
    exact ⟨_, _, rfl, hI⟩
  | some q =>
    obtain ⟨idx, j⟩ := q
    simp only [hc]
    dsimp only
    obtain ⟨hg, hidx⟩ := conIdx_char hc
    have hlen0 : (mesa.jugadores.eraseIdx idx).length = mesa.jugadores.length - 1 :=
      List.length_eraseIdx_of_lt hidx
    have hsal0 : SaldosOk (mesa.jugadores.eraseIdx idx) :=
      fun x hx => hI.saldos x (List.mem_of_mem_eraseIdx hx)
    have hcupo0 : (mesa.jugadores.eraseIdx idx).length ≤ 4 := by
      have := hI.cupo
      omega
    by_cases hron : mesa.en_ronda = true
    · rw [if_pos hron]
      cases hti : mesa.turno_idx with
      | none =>
        simp only [hti]
        refine ⟨_, _, rfl, ?_⟩
        refine ⟨hI.fresco, hcupo0, ?_, ?_, hI.fases, hsal0⟩
        · intro t2 ht2
          dsimp only at ht2
          cases ht2
        · intro hcf
          dsimp only at hcf
          simp [hron] at hcf
      | some ti =>
        simp only [hti]
        have hlt := hI.turno ti hti
        by_cases hit : idx = ti
        · rw [if_pos hit]
          obtain ⟨m3, evs1, hst, hI3⟩ := @sig_step
            { mesa with jugadores := mesa.jugadores.eraseIdx idx, turno_idx := some ti }
            hI.fresco hcupo0 hsal0 hron hI.fases
          simp only [hst]
          exact ⟨_, _, rfl, hI3⟩
        · rw [if_neg hit]
          by_cases hlt2 : idx < ti
          · rw [if_pos hlt2]
            refine ⟨_, _, rfl, ?_⟩
            refine ⟨hI.fresco, hcupo0, ?_, ?_, hI.fases, hsal0⟩
            · intro t2 ht2
              dsimp only at ht2 ⊢
              cases ht2
              omega
            · intro hcf
              dsimp only at hcf
              simp [hron] at hcf
          · rw [if_neg hlt2]
            refine ⟨_, _, rfl, ?_⟩
            refine ⟨hI.fresco, hcupo0, ?_, ?_, hI.fases, hsal0⟩
            · intro t2 ht2
              dsimp only at ht2 ⊢
              cases ht2
              omega
            · intro hcf
              dsimp only at hcf
              simp [hron] at hcf
    · rw [if_neg hron]
      have hronf : mesa.en_ronda = false := by
        cases hv : mesa.en_ronda with
        | false => rfl
        | true => exact absurd hv hron
      have hIm0 : InvMesa { mesa with jugadores := mesa.jugadores.eraseIdx idx } := by
        refine ⟨hI.fresco, hcupo0, ?_, ?_, hI.fases, hsal0⟩
        · intro t2 ht2
          dsimp only at ht2
          rw [hI.reposo hronf] at ht2
          cases ht2
        · intro _
          exact hI.reposo hronf
      by_cases hap : mesa.en_apuestas = true
      · rw [if_pos hap]
        obtain ⟨m2, evs, hev, hI2⟩ := ev_step hIm0
        simp only [hev]
        exact ⟨_, _, rfl, hI2⟩
      · rw [if_neg hap]
        exact ⟨_, _, rfl, hIm0⟩

theorem paso_step {mesa : Mesa} (hI : InvMesa mesa) (a : Accion) :
    ∃ m2 evs, paso mesa a = some (m2, evs) ∧ InvMesa m2 := by
  cases a with
  | conecta nombre => exact ⟨_, _, rfl, inv_conectar hI nombre⟩
  | comando pid c => exact manejar_step hI pid c
  | desconecta pid => exact desconectar_step hI pid

theorem inv_inicial {fresco : Nat → List Carta}
    (hf : ∀ n, (fresco n).length = 312) : InvMesa (mesaInicial fresco) := by
  refine ⟨hf, by simp [mesaInicial], ?_, fun _ => rfl, fun h => rfl, ?_⟩
  · intro t2 ht2
    cases ht2
  · intro x hx
    simp [mesaInicial] at hx

theorem ejecutar_inv : ∀ (acciones : List Accion) (mesa : Mesa), InvMesa mesa →
    ∃ m, ejecutar mesa acciones = some m ∧ InvMesa m := by
  intro acciones
  induction acciones with
  | nil => intro mesa hI; exact ⟨mesa, rfl, hI⟩
  | cons a resto ih =>
    intro mesa hI
    obtain ⟨m2, evs, hp, hI2⟩ := paso_step hI a
    obtain ⟨m3, hrun, hI3⟩ := ih m2 hI2
    refine ⟨m3, ?_, hI3⟩
    unfold ejecutar
    rw [hp]
    exact hrun

/-! ## The claims -/

/-- Claim C1: during dealer resolution the dealer draws exactly until its
adjusted hand value reaches 17 (every card is drawn from a value still
below 17, and the final value is at least 17, so a soft 17 also stops);
then every seated player is settled hand by hand: a busted hand loses with
no credit, a hand beating the dealer (or any hand when the dealer busts)
wins and is credited twice its bet, an equal hand pushes and is credited
its bet, and any other hand loses with no credit — `jugadorLiquidado` and
`detalleSpec` state exactly these rules in the words of the
specification. -/
theorem C1_banca_liquidacion {mesa m2 : Mesa} {evs : List Evento}
    (h : mesa.jugar_banca = some (m2, evs)) :
    17 ≤ valor_mano m2.banca ∧
    (∃ extra, m2.banca = mesa.banca ++ extra ∧
       ∀ k < extra.length, valor_mano (mesa.banca ++ extra.take k) < 17) ∧
    evs = [Evento.aTodos (Msg.resultados m2.banca (valor_mano m2.banca)
      ((mesa.jugadores.map (detalleSpec (valor_mano m2.banca))).flatten))] ∧
    m2.jugadores = mesa.jugadores.map (jugadorLiquidado (valor_mano m2.banca)) := by
  obtain ⟨mz, b, hl, hb, hmz, hr, ha, ht, hm, hsig, hjs, hevs⟩ := jugar_banca_char h
  obtain ⟨h17, hfr, extra, hext, hpref⟩ := bancaLoop_char 17 _ _ hl
  subst hb
  exact ⟨h17, ⟨extra, hext, hpref⟩, hevs, hjs⟩

theorem C1_banca_liquidacion_witness :
    mesaBancaW.jugar_banca = some (bancaWres.1, bancaWres.2) ∧
    17 ≤ valor_mano bancaWres.1.banca ∧
    bancaWres.1.jugadores =
      mesaBancaW.jugadores.map (jugadorLiquidado (valor_mano bancaWres.1.banca)) := by
  refine ⟨rfl, ?_, ?_⟩
  · exact (@C1_banca_liquidacion mesaBancaW _ _ rfl).1
  · exact (@C1_banca_liquidacion mesaBancaW _ _ rfl).2.2.2

/-- Claim C4 (code bug): when the turn holder disconnects mid-round, the
player list shifts before `siguiente_turno` runs, so the player that moves
into the departed index is treated as the one whose turn just ended and the
forward scan starts past it.  On `mesaDesconexion` (seat 0 holds the turn,
seat 1 has an unplayed live hand) the disconnection of seat 0 settles the
round at once — seat 1 is skipped instead of receiving the turn, its hand
being settled unplayed (it wins 200, ending at 600). -/
theorem C4_desconexion_bug :
    (desconectar mesaDesconexion 0).map
      (fun p => (p.1.en_ronda, p.1.turno_idx,
        p.1.jugadores.map (fun j => (j.id, j.saldo)))) =
      some (false, none, [(1, 600)]) ∧
    mesaDesconexion.jugadores.map (fun j => (j.id, activo j)) =
      [(0, true), (1, true)] ∧
    mesaDesconexion.turno_idx = some 0 ∧ mesaDesconexion.en_ronda = true := by
  exact ⟨rfl, rfl, rfl, rfl⟩

/-- Claim C3 counterexample: a SPLIT is accepted although the player has
two hands, not exactly one — on `mesaDividirDoble` (hands `[8,8]` and
`[5,5]`, active hand the first, bet 50, balance 100) the command succeeds,
leaving three hands, bets `[50, 50, 50]` and balance 50, with no error
event.  The claimed "exactly one hand" precondition is not checked by the
code. -/
theorem C3_dividir_cex :
    (manejar mesaDividirDoble 0 Cmd.dividir).map
      (fun p => (p.1.jugadores.map (fun j => (j.manos.length, j.apuestas, j.saldo)),
        p.2.any esError)) = some ([(3, [50, 50, 50], 50)], false) ∧
    mesaDividirDoble.jugadores.map (fun j => j.manos.length) = [2] := by
  exact ⟨rfl, rfl⟩

/-- Claim C5 counterexample: a BET sent while no betting phase is open is
not rejected — on the idle table `mesaReposo` the command `APOSTAR 100`
debits the balance (500 to 400), records the bet, and broadcasts
`APUESTA_OK`; no targeted error is sent and the state changes. -/
theorem C5_fase_cex :
    (manejar mesaReposo 0 (Cmd.apostar 100)).map
      (fun p => (p.1.jugadores.map (fun j => (j.saldo, j.apuestas)), p.2.any esError)) =
      some ([((400 : Int), [(100 : Int)])], false) ∧
    mesaReposo.en_apuestas = false ∧ mesaReposo.en_ronda = false ∧
    mesaReposo.jugadores.map (fun j => j.saldo) = [500] := by
  exact ⟨rfl, rfl, rfl, rfl⟩

set_option maxRecDepth 4000 in
/-- Claim C6 counterexample: the code does not reshuffle before every
removal.  Completing the bets on `mesaApuestas52` (a 52-card shoe) deals
2 dealer cards and 2 cards to each of the two bettors after a single
`barajar`, leaving 46 cards, even though from the third removal on the
size is below 52.  The per-removal `draw()` of the specification would
have reshuffled to 312 at the second removal and left 307 cards. -/
theorem C6_rebarajado_cex :
    (manejar mesaApuestas52 1 (Cmd.apostar 100)).map
      (fun p => (p.1.mazo.cartas.length, p.1.en_ronda)) = some (46, true) ∧
    (drawSpecN 6 ⟨baraja52, frescoLleno, 0⟩).map (fun m => m.cartas.length) =
      some 307 ∧
    (46 : Nat) ≠ 307 := by
  exact ⟨rfl, rfl, by decide⟩

/-- Claim C5 (amended): the four turn commands (HIT, STAND, DOUBLE, SPLIT)
sent while no round is active, or while no turn is assigned, or by a
participant other than the turn holder, produce exactly one targeted ERROR
to the sender and return the table unchanged.  (BET and CANCEL_BET carry
no phase guard — see the counterexample — so the claimed rejection does
not extend to them.) -/
theorem C5_guardia_turno (mesa : Mesa) (pid : Nat) (c : Cmd)
    (hc : c = Cmd.subir ∨ c = Cmd.quedarse ∨ c = Cmd.doblar ∨ c = Cmd.dividir)
    (hg : mesa.en_ronda = false ∨ mesa.turno_idx = none ∨
      (∃ ti j, mesa.turno_idx = some ti ∧ mesa.jugadores.get? ti = some j ∧
        j.id ≠ pid)) :
    manejar mesa pid c =
      some (mesa, [Evento.aUno pid (Msg.error "No es tu turno.")]) := by
  rcases hc with rfl | rfl | rfl | rfl <;>
  · unfold manejar
    dsimp only
    rcases hg with hrf | hti0 | ⟨ti, j, hti, hgj, hid⟩
    · rw [if_pos hrf]
    · by_cases hrf2 : mesa.en_ronda = false
      · rw [if_pos hrf2]
      · rw [if_neg hrf2]
        simp only [hti0]
    · by_cases hrf2 : mesa.en_ronda = false
      · rw [if_pos hrf2]
      · rw [if_neg hrf2]
        simp only [hti, hgj]
        rw [if_pos hid]

theorem C5_guardia_turno_witness :
    manejar mesaReposo 0 Cmd.subir =
      some (mesaReposo, [Evento.aUno 0 (Msg.error "No es tu turno.")]) :=
  C5_guardia_turno mesaReposo 0 Cmd.subir (Or.inl rfl) (Or.inl rfl)

/-- Claim C6 (amended): the threshold check runs once before every draw
sequence (each dealer draw, each hit or double draw, the two split draws,
and the round-opening deal), not before every single removal; since the
check leaves at least 52 cards and a sequence removes at most 2 + 2 * 4
cards, no draw ever fails: every session, whatever its commands, executes
with no pop from an empty pool (the model returns `none` on any such pop
or out-of-range access, so totality is the claimed safety). -/
theorem C6_sin_fallos (fresco : Nat → List Carta)
    (hf : ∀ n, (fresco n).length = 312) (acciones : List Accion) :
    ∃ m, ejecutar (mesaInicial fresco) acciones = some m := by
  obtain ⟨m, hrun, _⟩ := ejecutar_inv acciones (mesaInicial fresco) (inv_inicial hf)
  exact ⟨m, hrun⟩

set_option maxRecDepth 8000 in
theorem C6_sin_fallos_witness :
    (∀ n, (frescoLleno n).length = 312) ∧
    ∃ m, ejecutar (mesaInicial frescoLleno) accionesW = some m :=
  ⟨fun _ => rfl, C6_sin_fallos frescoLleno (fun _ => rfl) accionesW⟩

/-- Claim C9: balances start at 500 on connection and never become
negative in any session: every debit (bet, double, split) is accepted only
when the balance covers it, and settlement only credits. -/
theorem C9_saldo_no_negativo :
    (∀ (fresco : Nat → List Carta), (∀ n, (fresco n).length = 312) →
      ∀ (acciones : List Accion) (m : Mesa),
        ejecutar (mesaInicial fresco) acciones = some m →
        ∀ j ∈ m.jugadores, 0 ≤ j.saldo) ∧
    (∀ (mesa : Mesa) (nombre : String),
      (conectar mesa nombre).1.jugadores = mesa.jugadores ∨
      (conectar mesa nombre).1.jugadores =
        mesa.jugadores ++ [⟨mesa.siguiente_id, nombre, 500, [], [], false⟩]) := by
  constructor
  · intro fresco hf acciones m hrun j hj
    obtain ⟨m2, hrun2, hI2⟩ := ejecutar_inv acciones (mesaInicial fresco)
      (inv_inicial hf)
    rw [hrun] at hrun2
    cases hrun2
    exact (hI2.saldos j hj).1
  · intro mesa nombre
    unfold conectar
    split
    · exact Or.inl rfl
    · exact Or.inr rfl

set_option maxRecDepth 8000 in
theorem C9_saldo_no_negativo_witness :
    ejecutar (mesaInicial frescoLleno) accionesW = some ejecW ∧
    ∀ j ∈ ejecW.jugadores, 0 ≤ j.saldo :=
  ⟨rfl, C9_saldo_no_negativo.1 frescoLleno (fun _ => rfl) accionesW ejecW rfl⟩

theorem map_set_eq_of_eq {α β : Type _} (f : α → β) :
    ∀ (l : List α) (n : Nat) (a b : α), l.get? n = some b → f a = f b →
    (l.set n a).map f = l.map f := by
  intro l
  induction l with
  | nil =>
    intro n a b h hf
    cases h
  | cons x t ih =>
    intro n a b h hf
    cases n with
    | zero =>
      cases h
      simp only [List.set, List.map_cons, hf]
    | succ k =>
      simp only [List.set, List.map_cons]
      rw [ih k a b h hf]

theorem ev_saldo_map {mesa m2 : Mesa} {evs : List Evento}
    (h : mesa.evaluar_inicio_ronda = some (m2, evs)) :
    m2.jugadores.map (fun j => (j.id, j.saldo)) =
      mesa.jugadores.map (fun j => (j.id, j.saldo)) := by
  rcases evaluar_char h with ⟨he, _⟩ | ⟨he, _⟩ | ⟨_, _, _, _, _, _, hrel, _⟩
  · rw [he]
  · rw [he]
  · refine (forall2_map_eq ?_ hrel).symm
    intro a b hab
    obtain ⟨h1, _, h3, _⟩ := hab
    simp [h1, h3]

theorem ev_pres_idx {mesa m2 : Mesa} {evs : List Evento} {i : Nat} {j : Jugador}
    (h : mesa.evaluar_inicio_ronda = some (m2, evs))
    (hg : mesa.jugadores.get? i = some j) :
    ∃ j2, m2.jugadores.get? i = some j2 ∧ j2.id = j.id ∧ j2.saldo = j.saldo ∧
      j2.apuestas = j.apuestas ∧ j2.espera_apuesta = j.espera_apuesta ∧
      (j.apuestas = [] → j.manos = [] → j2.manos = []) := by
  rcases evaluar_char h with ⟨he, _⟩ | ⟨he, _⟩ | ⟨_, _, _, _, _, _, hrel, _⟩
  · subst he
    exact ⟨j, hg, rfl, rfl, rfl, rfl, fun _ hm => hm⟩
  · subst he
    exact ⟨j, hg, rfl, rfl, rfl, rfl, fun _ hm => hm⟩
  · obtain ⟨j2, hg2, hrel2⟩ := forall2_get? hrel i j hg
    obtain ⟨h1, _, h3, h4, h5, h6, _⟩ := hrel2
    refine ⟨j2, hg2, h1, h3, h4, h5, ?_⟩
    intro ha _
    exact h6 (by simp [ha])

/-- Claim C10: CANCEL_BET never refunds — every balance is unchanged by it
(the record is cleared but the already debited stake stays gone), and an
accepted second BET debits the new amount with no refund of any earlier
recorded bet. -/
theorem C10_cancelar_sin_reembolso :
    (∀ (mesa : Mesa) (pid : Nat) (m2 : Mesa) (evs : List Evento),
      manejar mesa pid Cmd.cancelarApuesta = some (m2, evs) →
      m2.jugadores.map (fun j => (j.id, j.saldo)) =
        mesa.jugadores.map (fun j => (j.id, j.saldo)) ∧
      ∀ i j, mesa.conIdx pid = some (i, j) →
        ∃ j2, m2.jugadores.get? i = some j2 ∧ j2.id = j.id ∧
          j2.saldo = j.saldo ∧ j2.apuestas = [] ∧ j2.manos = [] ∧
          j2.espera_apuesta = false) ∧
    (∀ (mesa : Mesa) (pid i : Nat) (j : Jugador) (monto : Int)
       (m2 : Mesa) (evs : List Evento),
      mesa.conIdx pid = some (i, j) →
      manejar mesa pid (Cmd.apostar monto) = some (m2, evs) →
      0 < monto → monto ≤ j.saldo →
      ∃ j2, m2.jugadores.get? i = some j2 ∧ j2.saldo = j.saldo - monto ∧
        j2.apuestas = [monto]) := by
  constructor
  · intro mesa pid m2 evs h
    unfold manejar at h
    dsimp only at h
    cases hc : mesa.conIdx pid with
    | none =>
      simp only [hc] at h
      cases h
      refine ⟨rfl, ?_⟩
      intro i j hci
      cases hci
    | some q =>
      obtain ⟨i0, j0⟩ := q
      simp only [hc] at h
      obtain ⟨hg0, hlt0⟩ := conIdx_char hc
      cases hev : Mesa.evaluar_inicio_ronda { mesa with jugadores := mesa.jugadores.set i0 { j0 with apuestas := [], manos := [], espera_apuesta := false } } with
      | none =>
        simp only [hev] at h
        cases h
      | some q2 =>
        obtain ⟨m2b, evs2⟩ := q2
        simp only [hev] at h
        cases h
        constructor
        · rw [ev_saldo_map hev]
          exact map_set_eq_of_eq _ mesa.jugadores i0 _ j0 hg0 rfl
        · intro i j hci
          cases hci
          have hgset : ({ mesa with jugadores := mesa.jugadores.set i0 { j0 with apuestas := [], manos := [], espera_apuesta := false } } : Mesa).jugadores.get? i0 = some { j0 with apuestas := [], manos := [], espera_apuesta := false } := by
            show (mesa.jugadores.set i0 _).get? i0 = _
            rw [List.get?_set_eq, hg0]
            rfl
          obtain ⟨j2, hg2, h1, h3, h4, h5, h6⟩ := ev_pres_idx hev hgset
          exact ⟨j2, hg2, h1, h3, h4, h6 rfl rfl, h5⟩
  · intro mesa pid i j monto m2 evs hci h hpos hle
    unfold manejar at h
    dsimp only at h
    rw [if_neg (by omega)] at h
    simp only [hci] at h
    rw [if_neg (by omega)] at h
    cases hev : Mesa.evaluar_inicio_ronda { mesa with jugadores := mesa.jugadores.set i { j with saldo := j.saldo - monto, apuestas := [monto], manos := [], espera_apuesta := false } } with
    | none =>
      simp only [hev] at h
      cases h
    | some q2 =>
      obtain ⟨m2b, evs2⟩ := q2
      simp only [hev] at h
      cases h
      obtain ⟨hg0, hlt0⟩ := conIdx_char hci
      have hgset : ({ mesa with jugadores := mesa.jugadores.set i { j with saldo := j.saldo - monto, apuestas := [monto], manos := [], espera_apuesta := false } } : Mesa).jugadores.get? i = some { j with saldo := j.saldo - monto, apuestas := [monto], manos := [], espera_apuesta := false } := by
        show (mesa.jugadores.set i _).get? i = _
        rw [List.get?_set_eq, hg0]
        rfl
      obtain ⟨j2, hg2, h1, h3, h4, h5, h6⟩ := ev_pres_idx hev hgset
      exact ⟨j2, hg2, h3, h4⟩

set_option maxRecDepth 8000 in
theorem C10_cancelar_sin_reembolso_witness :
    manejar mesaCancelarW 0 Cmd.cancelarApuesta = some (cancelWres.1, cancelWres.2) ∧
    cancelWres.1.jugadores.map (fun j => (j.id, j.saldo)) =
      mesaCancelarW.jugadores.map (fun j => (j.id, j.saldo)) ∧
    manejar mesaCancelarW 0 (Cmd.apostar 100) =
      some (reapuestaWres.1, reapuestaWres.2) ∧
    ∃ j2, reapuestaWres.1.jugadores.get? 0 = some j2 ∧
      j2.saldo = 450 - 100 ∧ j2.apuestas = [100] := by
  refine ⟨rfl, (C10_cancelar_sin_reembolso.1 mesaCancelarW 0 _ _ rfl).1, rfl, ?_⟩
  exact C10_cancelar_sin_reembolso.2 mesaCancelarW 0 0 ⟨0, "ana", 450, [], [50], false⟩
    100 reapuestaWres.1 reapuestaWres.2 rfl rfl (by norm_num) (by norm_num)

theorem getD_nil_of_ge {α : Type _} {l : List (List α)} {n : Nat}
    (h : l.length ≤ n) : l.getD n [] = [] := by
  rw [List.getD_eq_get?, List.get?_eq_none.2 h]
  rfl

theorem getD_set_self {α : Type _} {l : List α} {n : Nat} {a d : α}
    (h : n < l.length) : (l.set n a).getD n d = a := by
  rw [List.getD_eq_get?, List.get?_set_eq]
  cases hg : l.get? n with
  | none =>
    rw [List.get?_eq_none] at hg
    omega
  | some b => simp [hg]

/-- Claim C7: with the turn on player `j` (and the stable-state invariant
that bets and hands have equal length), a DOUBLE is accepted exactly when
the sender is the turn holder, the active hand has exactly two cards, and
the balance covers the recorded bet.  On acceptance the matching amount is
debited, the recorded bet doubles, exactly one card is drawn (the
broadcast state shows the hand with three cards), and the turn advances
unconditionally: to the next hand of the same player, to a later player,
or to dealer resolution.  Otherwise a single targeted ERROR is sent and
the table is unchanged. -/
theorem C7_doblar_spec {mesa : Mesa} {pid ti : Nat} {j : Jugador}
    (hr : mesa.en_ronda = true) (hti : mesa.turno_idx = some ti)
    (hgj : mesa.jugadores.get? ti = some j)
    (hlen : j.apuestas.length = j.manos.length)
    (hfre : FrescoOk mesa.mazo) :
    (j.id = pid →
      (j.manos.getD (mesa.mano_turno_idx.getD 0) []).length = 2 →
      j.apuestas.getD (mesa.mano_turno_idx.getD 0) 0 ≤ j.saldo →
      ∃ carta m3 rest e,
        manejar mesa pid Cmd.doblar = some (m3,
          Evento.aTodos (Msg.info (j.nombre ++ " dobló.")) ::
          Evento.aTodos (Msg.estado e) :: rest) ∧
        (∃ jj, e.jugadores.get? ti = some jj ∧
          jj.manos = j.manos.set (mesa.mano_turno_idx.getD 0)
            (j.manos.getD (mesa.mano_turno_idx.getD 0) [] ++ [carta]) ∧
          (jj.manos.getD (mesa.mano_turno_idx.getD 0) []).length = 3 ∧
          jj.apuestas = j.apuestas.set (mesa.mano_turno_idx.getD 0)
            (2 * j.apuestas.getD (mesa.mano_turno_idx.getD 0) 0) ∧
          jj.saldo = j.saldo - j.apuestas.getD (mesa.mano_turno_idx.getD 0) 0) ∧
        ((m3.turno_idx = some ti ∧
            m3.mano_turno_idx = some (mesa.mano_turno_idx.getD 0 + 1)) ∨
         (∃ nxt, ti < nxt ∧ m3.turno_idx = some nxt ∧
            m3.mano_turno_idx = some 0) ∨
         (m3.turno_idx = none ∧ m3.en_ronda = false))) ∧
    (¬ (j.id = pid ∧
        (j.manos.getD (mesa.mano_turno_idx.getD 0) []).length = 2 ∧
        j.apuestas.getD (mesa.mano_turno_idx.getD 0) 0 ≤ j.saldo) →
      ∃ msg, manejar mesa pid Cmd.doblar =
        some (mesa, [Evento.aUno pid (Msg.error msg)])) := by
  have hrne : ¬ mesa.en_ronda = false := by
    rw [hr]
    simp
  constructor
  · intro hid h2c hsa
    have hmimanos : mesa.mano_turno_idx.getD 0 < j.manos.length := by
      by_contra hge
      rw [getD_nil_of_ge (by omega)] at h2c
      cases h2c
    have hmiap : mesa.mano_turno_idx.getD 0 < j.apuestas.length := by omega
    have hb := Mazo.barajar_length hfre
    have hne : (mesa.mazo.barajar).cartas ≠ [] := by
      intro he
      rw [he] at hb
      simp at hb
    obtain ⟨carta, mz2, hp⟩ := Mazo.pop_some hne
    have hfr2 : FrescoOk mz2 := by
      intro n
      rw [(Mazo.pop_char hp).1, Mazo.barajar_fresco]
      exact hfre n
    obtain ⟨m3, evs1, hst⟩ := @siguiente_turno_total
      { mesa with jugadores := mesa.jugadores.set ti { j with saldo := j.saldo - j.apuestas.getD (mesa.mano_turno_idx.getD 0) 0, apuestas := j.apuestas.set (mesa.mano_turno_idx.getD 0) (j.apuestas.getD (mesa.mano_turno_idx.getD 0) 0 + j.apuestas.getD (mesa.mano_turno_idx.getD 0) 0), manos := j.manos.set (mesa.mano_turno_idx.getD 0) (j.manos.getD (mesa.mano_turno_idx.getD 0) [] ++ [carta]) }, mazo := mz2, turno_idx := some ti }
      hfr2
    have heq : manejar mesa pid Cmd.doblar = some (m3,
        Evento.aTodos (Msg.info (j.nombre ++ " dobló.")) ::
        Evento.aTodos (Msg.estado (Mesa.estado_json { mesa with jugadores := mesa.jugadores.set ti { j with saldo := j.saldo - j.apuestas.getD (mesa.mano_turno_idx.getD 0) 0, apuestas := j.apuestas.set (mesa.mano_turno_idx.getD 0) (j.apuestas.getD (mesa.mano_turno_idx.getD 0) 0 + j.apuestas.getD (mesa.mano_turno_idx.getD 0) 0), manos := j.manos.set (mesa.mano_turno_idx.getD 0) (j.manos.getD (mesa.mano_turno_idx.getD 0) [] ++ [carta]) }, mazo := mz2, turno_idx := some ti })) ::
        (evs1 ++ (if m3.en_ronda = true then [estadoEv m3] else []))) := by
      unfold manejar
      dsimp only
      rw [if_neg hrne]
      simp only [hti, hgj]
      rw [if_neg (by simp [hid])]
      rw [if_neg (by omega)]
      rw [if_neg (by omega)]
      rw [if_neg (by omega)]
      simp only [hp, hst]
      rfl
    refine ⟨carta, m3, _, _, heq, ?_, ?_⟩
    · refine ⟨{ nombre := j.nombre, saldo := j.saldo - j.apuestas.getD (mesa.mano_turno_idx.getD 0) 0, manos := j.manos.set (mesa.mano_turno_idx.getD 0) (j.manos.getD (mesa.mano_turno_idx.getD 0) [] ++ [carta]), apuestas := j.apuestas.set (mesa.mano_turno_idx.getD 0) (j.apuestas.getD (mesa.mano_turno_idx.getD 0) 0 + j.apuestas.getD (mesa.mano_turno_idx.getD 0) 0) }, ?_, ?_, ?_, ?_, ?_⟩
      · show ((mesa.jugadores.set ti _).map _).get? ti = _
        rw [List.get?_map, List.get?_set_eq, hgj]
        rfl
      · rfl
      · show ((j.manos.set (mesa.mano_turno_idx.getD 0) _).getD (mesa.mano_turno_idx.getD 0) []).length = 3
        rw [getD_set_self hmimanos, List.length_append, h2c]
        rfl
      · show j.apuestas.set _ _ = _
        rw [two_mul]
      · rfl
    · rcases siguiente_turno_char hst with ⟨hc, _, _⟩ | ⟨_, _, he, _⟩ |
        ⟨ti2, nxt, hti2, hlt2, _, he, _⟩ | ⟨b, h1, _, h3, _⟩
      · rcases hc with hc | hc
        · dsimp only at hc
          cases hc
        · dsimp only at hc
          rw [hr] at hc
          cases hc
      · rw [he]
        exact Or.inl ⟨rfl, rfl⟩
      · dsimp only at hti2
        cases hti2
        rw [he]
        exact Or.inr (Or.inl ⟨nxt, hlt2, rfl, rfl⟩)
      · exact Or.inr (Or.inr ⟨h3, h1⟩)
  · intro hn
    unfold manejar
    dsimp only
    rw [if_neg hrne]
    simp only [hti, hgj]
    by_cases hid : j.id ≠ pid
    · rw [if_pos hid]
      exact ⟨_, rfl⟩
    · rw [if_neg hid]
      by_cases hmi : j.manos.length ≤ mesa.mano_turno_idx.getD 0 ∨
          j.apuestas.length ≤ mesa.mano_turno_idx.getD 0
      · rw [if_pos hmi]
        exact ⟨_, rfl⟩
      · rw [if_neg hmi]
        by_cases h2c : (j.manos.getD (mesa.mano_turno_idx.getD 0) []).length ≠ 2
        · rw [if_pos h2c]
          exact ⟨_, rfl⟩
        · rw [if_neg h2c]
          by_cases hsf : j.saldo < j.apuestas.getD (mesa.mano_turno_idx.getD 0) 0
          · rw [if_pos hsf]
            exact ⟨_, rfl⟩
          · exact absurd ⟨by omega, by omega, by omega⟩ hn

set_option maxRecDepth 4000 in
theorem C7_doblar_spec_witness :
    mesaDoblarW.en_ronda = true ∧
    ∃ carta m3 rest e,
      manejar mesaDoblarW 0 Cmd.doblar = some (m3,
        Evento.aTodos (Msg.info ("ana" ++ " dobló.")) ::
        Evento.aTodos (Msg.estado e) :: rest) ∧
      (∃ jj, e.jugadores.get? 0 = some jj ∧
        jj.manos = [[(Rango.r5, Palo.picas), (Rango.r6, Palo.corazones)]].set 0
          ([(Rango.r5, Palo.picas), (Rango.r6, Palo.corazones)] ++ [carta]) ∧
        (jj.manos.getD 0 []).length = 3 ∧
        jj.apuestas = [(100 : Int)].set 0 (2 * 100) ∧
        jj.saldo = 100 - 100) := by
  refine ⟨rfl, ?_⟩
  obtain ⟨carta, m3, rest, e, h1, h2, h3⟩ :=
    (@C7_doblar_spec mesaDoblarW 0 0
      ⟨0, "ana", 100, [[(Rango.r5, Palo.picas), (Rango.r6, Palo.corazones)]], [100], false⟩
      rfl rfl rfl rfl (fun _ => rfl)).1 rfl rfl (by decide)
  exact ⟨carta, m3, rest, e, h1, h2⟩

/-- Claim C8: while a round is active every STATE payload masks the dealer
hand down to the first card plus a placeholder, so two tables that differ
only in the hidden dealer cards broadcast identical STATE payloads; outside
a round the STATE payload carries the full dealer hand, and the settlement
broadcast of `jugar_banca` carries the full final dealer hand in clear. -/
theorem C8_vista_banca_spec :
    (∀ (mesa : Mesa) (c0 c1 : Carta) (resto : List Carta),
      mesa.en_ronda = true → mesa.banca = c0 :: c1 :: resto →
      mesa.vista_banca = [CartaVista.visible c0, CartaVista.oculta]) ∧
    (∀ (mesa : Mesa) (b2 : List Carta),
      mesa.en_ronda = true →
      b2.head? = mesa.banca.head? →
      2 ≤ mesa.banca.length → 2 ≤ b2.length →
      Mesa.estado_json { mesa with banca := b2 } = mesa.estado_json) ∧
    (∀ mesa : Mesa, mesa.en_ronda = false →
      mesa.vista_banca = mesa.banca.map CartaVista.visible) ∧
    (∀ (mesa m2 : Mesa) (evs : List Evento), mesa.jugar_banca = some (m2, evs) →
      ∃ detalle, evs =
        [Evento.aTodos (Msg.resultados m2.banca (valor_mano m2.banca) detalle)]) := by
  refine ⟨?_, ?_, ?_, ?_⟩
  · intro mesa c0 c1 resto hr hb
    unfold Mesa.vista_banca
    rw [hr, hb]
  · intro mesa b2 hr hh hl1 hl2
    cases hb1 : mesa.banca with
    | nil =>
      rw [hb1] at hl1
      simp at hl1
    | cons c0 t1 =>
      cases t1 with
      | nil =>
        rw [hb1] at hl1
        simp at hl1
      | cons c1 r1 =>
        cases b2 with
        | nil => simp at hl2
        | cons d0 t2 =>
          cases t2 with
          | nil => simp at hl2
          | cons d1 r2 =>
            rw [hb1] at hh
            simp only [List.head?] at hh
            cases hh
            have hv : Mesa.vista_banca { mesa with banca := c0 :: d1 :: r2 } =
                mesa.vista_banca := by
              unfold Mesa.vista_banca
              dsimp only
              rw [hr, hb1]
            unfold Mesa.estado_json
            dsimp only
            rw [hv]
  · intro mesa hr
    unfold Mesa.vista_banca
    rw [hr]
  · intro mesa m2 evs h
    obtain ⟨mz, b, hl, hb, _, _, _, _, _, _, _, hevs⟩ := jugar_banca_char h
    refine ⟨(mesa.jugadores.map (detalleSpec (valor_mano b))).flatten, ?_⟩
    rw [hevs, hb]

theorem C8_vista_banca_spec_witness :
    mesaDesconexion.vista_banca =
      [CartaVista.visible (Rango.r10, Palo.diamantes), CartaVista.oculta] ∧
    Mesa.estado_json { mesaDesconexion with banca := [(Rango.r10, Palo.diamantes), (Rango.r9, Palo.treboles)] } =
      mesaDesconexion.estado_json ∧
    mesaReposo.vista_banca = mesaReposo.banca.map CartaVista.visible ∧
    ∃ detalle, bancaWres.2 =
      [Evento.aTodos (Msg.resultados bancaWres.1.banca (valor_mano bancaWres.1.banca) detalle)] := by
  refine ⟨?_, ?_, ?_, ?_⟩
  · exact C8_vista_banca_spec.1 mesaDesconexion _ _ _ rfl rfl
  · exact C8_vista_banca_spec.2.1 mesaDesconexion _ rfl rfl (by decide) (by decide)
  · exact C8_vista_banca_spec.2.2.1 mesaReposo rfl
  · exact C8_vista_banca_spec.2.2.2 mesaBancaW bancaWres.1 bancaWres.2 rfl

theorem length_insertarEn {α : Type _} (n : Nat) (a : α) (l : List α) :
    (insertarEn n a l).length = l.length + 1 := by
  unfold insertarEn
  rw [List.length_append, List.length_cons, List.length_take, List.length_drop]
  omega

/-- Claim C3 (amended): with the turn on player `j` (and bets and hands of
equal length), a SPLIT is accepted exactly when the sender is the turn
holder, the active hand — whatever the number of hands already held — is a
two-card pair of equal rank, and the balance covers that hand's bet.  On
acceptance the bet amount is debited, the active hand becomes its first
card plus a fresh draw, a hand of the second card plus a fresh draw is
inserted right after it, the bet list grows by the same amount at the same
position, and the turn stays on the same player and hand index.  Otherwise
a single targeted ERROR is sent and the table is unchanged. -/
theorem C3_dividir_amended {mesa : Mesa} {pid ti : Nat} {j : Jugador} {c1 c2 : Carta}
    (hr : mesa.en_ronda = true) (hti : mesa.turno_idx = some ti)
    (hgj : mesa.jugadores.get? ti = some j)
    (hlen : j.apuestas.length = j.manos.length)
    (hfre : FrescoOk mesa.mazo) :
    (j.id = pid →
      j.manos.getD (mesa.mano_turno_idx.getD 0) [] = [c1, c2] →
      c1.1 = c2.1 →
      j.apuestas.getD (mesa.mano_turno_idx.getD 0) 0 ≤ j.saldo →
      ∃ n1 n2 m3,
        manejar mesa pid Cmd.dividir = some (m3,
          [Evento.aTodos (Msg.info (j.nombre ++ " dividió su mano.")), estadoEv m3]) ∧
        m3.turno_idx = some ti ∧
        m3.mano_turno_idx = mesa.mano_turno_idx ∧
        m3.en_ronda = true ∧
        (∃ j2, m3.jugadores.get? ti = some j2 ∧
          j2.saldo = j.saldo - j.apuestas.getD (mesa.mano_turno_idx.getD 0) 0 ∧
          j2.manos = insertarEn (mesa.mano_turno_idx.getD 0 + 1) [c2, n2]
            (j.manos.set (mesa.mano_turno_idx.getD 0) [c1, n1]) ∧
          j2.apuestas = insertarEn (mesa.mano_turno_idx.getD 0 + 1)
            (j.apuestas.getD (mesa.mano_turno_idx.getD 0) 0) j.apuestas ∧
          j2.manos.length = j.manos.length + 1 ∧
          j2.apuestas.length = j.apuestas.length + 1)) ∧
    (¬ (j.id = pid ∧
        (∃ d1 d2, j.manos.getD (mesa.mano_turno_idx.getD 0) [] = [d1, d2] ∧
          d1.1 = d2.1) ∧
        j.apuestas.getD (mesa.mano_turno_idx.getD 0) 0 ≤ j.saldo) →
      ∃ msg, manejar mesa pid Cmd.dividir =
        some (mesa, [Evento.aUno pid (Msg.error msg)])) := by
  have hrne : ¬ mesa.en_ronda = false := by
    rw [hr]
    simp
  constructor
  · intro hid hm hcc hsa
    have hmimanos : mesa.mano_turno_idx.getD 0 < j.manos.length := by
      by_contra hge
      rw [getD_nil_of_ge (by omega)] at hm
      cases hm
    have hb := Mazo.barajar_length hfre
    have hne : (mesa.mazo.barajar).cartas ≠ [] := by
      intro he
      rw [he] at hb
      simp at hb
    obtain ⟨n1, mz1, hp1⟩ := Mazo.pop_some hne
    have hl1 := (Mazo.pop_char hp1).2
    have hne1 : mz1.cartas ≠ [] := by
      intro he
      rw [he] at hl1
      simp at hl1
      omega
    obtain ⟨n2, mz2, hp2⟩ := Mazo.pop_some hne1
    refine ⟨n1, n2, { mesa with jugadores := mesa.jugadores.set ti { j with saldo := j.saldo - j.apuestas.getD (mesa.mano_turno_idx.getD 0) 0, manos := insertarEn (mesa.mano_turno_idx.getD 0 + 1) [c2, n2] (j.manos.set (mesa.mano_turno_idx.getD 0) [c1, n1]), apuestas := insertarEn (mesa.mano_turno_idx.getD 0 + 1) (j.apuestas.getD (mesa.mano_turno_idx.getD 0) 0) j.apuestas }, mazo := mz2 }, ?_, hti, rfl, hr, ?_⟩
    · unfold manejar
      dsimp only
      rw [if_neg hrne]
      simp only [hti, hgj]
      rw [if_neg (by simp [hid])]
      rw [if_neg (by omega)]
      simp only [hm]
      have hcond : c1.1 = c2.1 ∧
          j.apuestas.getD (mesa.mano_turno_idx.getD 0) 0 ≤ j.saldo := ⟨hcc, hsa⟩
      rw [if_pos hcond]
      simp only [hp1, hp2]
    · refine ⟨{ j with saldo := j.saldo - j.apuestas.getD (mesa.mano_turno_idx.getD 0) 0, manos := insertarEn (mesa.mano_turno_idx.getD 0 + 1) [c2, n2] (j.manos.set (mesa.mano_turno_idx.getD 0) [c1, n1]), apuestas := insertarEn (mesa.mano_turno_idx.getD 0 + 1) (j.apuestas.getD (mesa.mano_turno_idx.getD 0) 0) j.apuestas }, ?_, rfl, rfl, rfl, ?_, ?_⟩
      · show ((mesa.jugadores.set ti _)).get? ti = _
        rw [List.get?_set_eq, hgj]
        rfl
      · show (insertarEn _ _ _).length = _
        rw [length_insertarEn, List.length_set]
      · show (insertarEn _ _ _).length = _
        rw [length_insertarEn]
  · intro hn
    unfold manejar
    dsimp only
    rw [if_neg hrne]
    simp only [hti, hgj]
    by_cases hid : j.id ≠ pid
    · rw [if_pos hid]
      exact ⟨_, rfl⟩
    · rw [if_neg hid]
      by_cases hmi : j.manos.length ≤ mesa.mano_turno_idx.getD 0 ∨
          j.apuestas.length ≤ mesa.mano_turno_idx.getD 0
      · rw [if_pos hmi]
        exact ⟨_, rfl⟩
      · rw [if_neg hmi]
        cases hm : j.manos.getD (mesa.mano_turno_idx.getD 0) [] with
        | nil =>
          simp only [hm]
          exact ⟨_, rfl⟩
        | cons d1 t1 =>
          cases t1 with
          | nil =>
            simp only [hm]
            exact ⟨_, rfl⟩
          | cons d2 t2 =>
            cases t2 with
            | cons d3 t3 =>
              simp only [hm]
              exact ⟨_, rfl⟩
            | nil =>
              by_cases hcs : d1.1 = d2.1 ∧
                  j.apuestas.getD (mesa.mano_turno_idx.getD 0) 0 ≤ j.saldo
              · exact absurd ⟨by omega, ⟨d1, d2, hm, hcs.1⟩, hcs.2⟩ hn
              · simp only [hm]
                rw [if_neg hcs]
                exact ⟨_, rfl⟩

set_option maxRecDepth 4000 in
theorem C3_dividir_amended_witness :
    mesaDividirUna.jugadores.map (fun j => j.manos.length) = [1] ∧
    ∃ n1 n2 m3,
      manejar mesaDividirUna 0 Cmd.dividir = some (m3,
        [Evento.aTodos (Msg.info ("ana" ++ " dividió su mano.")), estadoEv m3]) ∧
      m3.turno_idx = some 0 ∧
      ∃ j2, m3.jugadores.get? 0 = some j2 ∧
        j2.saldo = 100 - 50 ∧
        j2.manos = insertarEn 1 [(Rango.r8, Palo.corazones), n2]
          ([[(Rango.r8, Palo.picas), (Rango.r8, Palo.corazones)]].set 0
            [(Rango.r8, Palo.picas), n1]) ∧
        j2.apuestas = insertarEn 1 50 [(50 : Int)] ∧
        j2.manos.length = 2 := by
  refine ⟨rfl, ?_⟩
  obtain ⟨n1, n2, m3, h1, h2, h3, h4, j2, h5, h6, h7, h8, h9, h10⟩ :=
    (@C3_dividir_amended mesaDividirUna 0 0
      ⟨0, "ana", 100, [[(Rango.r8, Palo.picas), (Rango.r8, Palo.corazones)]], [50], false⟩
      (Rango.r8, Palo.picas) (Rango.r8, Palo.corazones)
      rfl rfl rfl rfl (fun _ => rfl)).1 rfl rfl rfl (by decide)
  exact ⟨n1, n2, m3, h1, h2, j2, h5, h6, h7, h8, h9⟩
